import Mathlib

/-!
Verification of the numerical core of `bfCoeffCalc.py` (brighter-fatter
kernel calculation task).

Shallow embedding conventions:
* numpy float arrays are embedded as total functions `ℕ → ℕ → ℚ` together
  with explicit dimensions; Python float literals (`1.3`, `0.7`, `0.9241`,
  `.25`, ...) are embedded as the exact rationals they denote in the source
  text;
* the external `lsst.afw.math` statistics engine (`makeStatistics` with
  `MEANCLIP` / `VARIANCECLIP`) and the background estimator
  (`makeBackground` + `getImageF`) are library collaborators whose code is
  not part of this repository; they are embedded as abstract function
  parameters, so every theorem below holds for every possible behaviour of
  those primitives;
* in-place numpy / afw mutation is embedded by returning the final state of
  the mutated array alongside the computed result;
* fallible code is embedded with `Option`: `none` marks the points where
  the Python source itself raises (for example the `NameError` of a loop
  variable when a loop body never runs).
-/

namespace BfCoeffCalc

/-- Point update of a two-index array, embedding `a[i, j] = v`. -/
def upd2 (f : ℕ → ℕ → ℚ) (i j : ℕ) (v : ℚ) : ℕ → ℕ → ℚ :=
  fun x y => if x = i ∧ y = j then v else f x y

/-- Sum of `g 0 + g 1 + ... + g (n-1)`, embedding a numpy reduction along
one axis. -/
def sumRange (n : ℕ) (g : ℕ → ℚ) : ℚ :=
  ((List.range n).map g).sum

/-- Sum of all entries of an `m × n` array, embedding `np.sum`. -/
def sumGrid (m n : ℕ) (f : ℕ → ℕ → ℚ) : ℚ :=
  sumRange m (fun i => sumRange n (f i))

/-! ### `BfTask._tileArray`

The source tiles a square quarter array of side `n` into the full
`(2n-1) × (2n-1)` point-symmetric array by a double loop writing each
quarter value to the four mirror positions. -/

/-- One iteration of the body of the `_tileArray` double loop: the four
writes `output[i+L, j+L] = output[-i+L, j+L] = output[i+L, -j+L] =
output[-i+L, -j+L] = in_array[i, j]` (negative numpy indices `-i+L` are the
naturals `L - i` because `i ≤ L`). -/
def quadWrite (Q : ℕ → ℕ → ℚ) (L i j : ℕ) (out : ℕ → ℕ → ℚ) : ℕ → ℕ → ℚ :=
  upd2 (upd2 (upd2 (upd2 out (i+L) (j+L) (Q i j)) (L-i) (j+L) (Q i j))
    (i+L) (L-j) (Q i j)) (L-i) (L-j) (Q i j)

/-- The inner `for j in range(length+1)` loop of `_tileArray`, run for
`j = 0, ..., k-1`. -/
def tileInner (Q : ℕ → ℕ → ℚ) (L i : ℕ) : ℕ → (ℕ → ℕ → ℚ) → (ℕ → ℕ → ℚ)
  | 0, out => out
  | k+1, out => quadWrite Q L i k (tileInner Q L i k out)

/-- The outer `for i in range(length+1)` loop of `_tileArray`, run for
`i = 0, ..., k-1`. -/
def tileOuter (Q : ℕ → ℕ → ℚ) (L : ℕ) : ℕ → (ℕ → ℕ → ℚ) → (ℕ → ℕ → ℚ)
  | 0, out => out
  | k+1, out => tileInner Q L k (L+1) (tileOuter Q L k out)

/-- `BfTask._tileArray`: tile/mirror a square quarter array of side `n`
(`length = n - 1` in the source) into the full array of side `2n-1`,
starting from `np.zeros`. -/
def tileArray (n : ℕ) (Q : ℕ → ℕ → ℚ) : ℕ → ℕ → ℚ :=
  tileOuter Q (n-1) ((n-1)+1) (fun _ _ => 0)

/-- Distance of an output index from the centre `L` of a tiled array: the
quarter index it mirrors. -/
def foldIdx (L a : ℕ) : ℕ :=
  if L ≤ a then a - L else L - a

lemma foldIdx_le {L a : ℕ} (h : a ≤ 2*L) : foldIdx L a ≤ L := by
  unfold foldIdx; split <;> omega

lemma foldIdx_addL {L j : ℕ} : foldIdx L (j + L) = j := by
  unfold foldIdx; split <;> omega

lemma foldIdx_subL {L j : ℕ} (h : j ≤ L) : foldIdx L (L - j) = j := by
  unfold foldIdx; split <;> omega

lemma foldIdx_cases {L a : ℕ} (_h : a ≤ 2*L) :
    a = foldIdx L a + L ∨ a = L - foldIdx L a := by
  unfold foldIdx; split
  · left; omega
  · right; omega

lemma quadWrite_eval (Q : ℕ → ℕ → ℚ) (L i j : ℕ) (out : ℕ → ℕ → ℚ)
    (r c : ℕ) :
    quadWrite Q L i j out r c =
      if (r = i + L ∨ r = L - i) ∧ (c = j + L ∨ c = L - j) then Q i j
      else out r c := by
  simp only [quadWrite, upd2]
  split_ifs <;> first | rfl | (exfalso; omega)

lemma tileInner_eval (Q : ℕ → ℕ → ℚ) (L i : ℕ) (_hi : i ≤ L) :
    ∀ (k : ℕ), k ≤ L + 1 → ∀ (out : ℕ → ℕ → ℚ) (r c : ℕ),
      tileInner Q L i k out r c =
        if (r = i + L ∨ r = L - i) ∧ c ≤ 2*L ∧ foldIdx L c < k then
          Q i (foldIdx L c)
        else out r c := by
  intro k
  induction k with
  | zero =>
    intro _ out r c
    rw [tileInner, if_neg]
    omega
  | succ k ih =>
    intro hk out r c
    rw [tileInner, quadWrite_eval, ih (by omega)]
    by_cases hr : r = i + L ∨ r = L - i
    · by_cases hc : c = k + L ∨ c = L - k
      · have hck : foldIdx L c = k := by
          rcases hc with hc | hc
          · rw [hc]; exact foldIdx_addL
          · rw [hc]; exact foldIdx_subL (by omega)
        have hc2 : c ≤ 2*L := by rcases hc with hc | hc <;> omega
        rw [if_pos ⟨hr, hc⟩, if_pos ⟨hr, hc2, by omega⟩, hck]
      · rw [if_neg (by tauto)]
        by_cases hc2 : c ≤ 2*L ∧ foldIdx L c < k
        · rw [if_pos ⟨hr, hc2.1, hc2.2⟩, if_pos ⟨hr, hc2.1, by omega⟩]
        · rw [if_neg (by tauto), if_neg]
          intro hcon
          rcases hcon with ⟨_, hcle, hlt⟩
          have : foldIdx L c ≠ k := by
            intro he
            rcases foldIdx_cases hcle with h1 | h1
            · exact hc (Or.inl (by omega))
            · exact hc (Or.inr (by omega))
          exact hc2 ⟨hcle, by omega⟩
    · rw [if_neg (by tauto), if_neg (by tauto), if_neg (by tauto)]

lemma tileOuter_eval (Q : ℕ → ℕ → ℚ) (L : ℕ) :
    ∀ (k : ℕ), k ≤ L + 1 → ∀ (out : ℕ → ℕ → ℚ) (r c : ℕ),
      tileOuter Q L k out r c =
        if r ≤ 2*L ∧ foldIdx L r < k ∧ c ≤ 2*L then
          Q (foldIdx L r) (foldIdx L c)
        else out r c := by
  intro k
  induction k with
  | zero =>
    intro _ out r c
    rw [tileOuter, if_neg]
    omega
  | succ k ih =>
    intro hk out r c
    rw [tileOuter, tileInner_eval Q L k (by omega) (L+1) (le_refl _),
      ih (by omega)]
    by_cases hr : r = k + L ∨ r = L - k
    · have hrk : foldIdx L r = k := by
        rcases hr with hr | hr
        · rw [hr]; exact foldIdx_addL
        · rw [hr]; exact foldIdx_subL (by omega)
      have hr2 : r ≤ 2*L := by rcases hr with hr | hr <;> omega
      by_cases hc : c ≤ 2*L
      · rw [if_pos ⟨hr, hc, by have := foldIdx_le hc; omega⟩,
          if_pos ⟨hr2, by omega, hc⟩, hrk]
      · rw [if_neg (by tauto), if_neg (by tauto), if_neg (by tauto)]
    · rw [if_neg (by tauto)]
      by_cases hcase : r ≤ 2*L ∧ foldIdx L r < k ∧ c ≤ 2*L
      · rw [if_pos hcase, if_pos ⟨hcase.1, by omega, hcase.2.2⟩]
      · rw [if_neg hcase, if_neg]
        intro hcon
        rcases hcon with ⟨hrle, hlt, hcle⟩
        have : foldIdx L r ≠ k := by
          intro he
          rcases foldIdx_cases hrle with h1 | h1
          · exact hr (Or.inl (by omega))
          · exact hr (Or.inr (by omega))
        exact hcase ⟨hrle, by omega, hcle⟩

/-- Full characterization of `_tileArray` on the in-range indices: the value
at `(r, c)` is the quarter value at the mirror distances from the centre. -/
lemma tileArray_eval (n : ℕ) (_hn : 1 ≤ n) (Q : ℕ → ℕ → ℚ) (r c : ℕ)
    (hr : r ≤ 2*(n-1)) (hc : c ≤ 2*(n-1)) :
    tileArray n Q r c = Q (foldIdx (n-1) r) (foldIdx (n-1) c) := by
  rw [tileArray, tileOuter_eval Q (n-1) ((n-1)+1) (le_refl _), if_pos]
  exact ⟨hr, by have := foldIdx_le hr; omega, hc⟩

/-! ### `BfTask._generateKernel`, per-sample processing

For each `((mean1, mean2), corr)` pair the source mutates the caller's
quarter correlation array in place:

    corr[0, 0] -= (mean1+mean2)
    if corr[0, 0] > 0: continue            # sample skipped
    corr /= -float(1.0*(mean1**2+mean2**2))
    fullCorr = self._tileArray(corr)
    xcorrCheck = np.abs(np.sum(fullCorr))/np.sum(np.abs(fullCorr))
    if xcorrCheck > rejectLevel: continue  # sample skipped
    xcorrList.append(fullCorr)
-/

/-- The `xcorrCheck` ratio `|np.sum(full)| / np.sum(np.abs(full))` over the
full `(2n-1) × (2n-1)` tiled surface. -/
def sampleRatio (n : ℕ) (full : ℕ → ℕ → ℚ) : ℚ :=
  |sumGrid (2*(n-1)+1) (2*(n-1)+1) full| /
    sumGrid (2*(n-1)+1) (2*(n-1)+1) (fun x y => |full x y|)

/-- In-place whole-array division `corr /= -float(1.0*(m1**2+m2**2))`. -/
def divNeg (m1 m2 : ℚ) (f : ℕ → ℕ → ℚ) : ℕ → ℕ → ℚ :=
  fun x y => f x y / (-(m1^2 + m2^2))

/-- One iteration of the sample loop of `_generateKernel` for quarter arrays
of side `n = maxLag + 1`.  First component: the tiled surface appended to
`xcorrList`, or `none` if the sample is skipped.  Second component: the
final state of the caller's `corr` array (the loop body mutates it in
place). -/
def genKernelStep (n : ℕ) (rejectLevel m1 m2 : ℚ) (corr : ℕ → ℕ → ℚ) :
    Option (ℕ → ℕ → ℚ) × (ℕ → ℕ → ℚ) :=
  let corr1 := upd2 corr 0 0 (corr 0 0 - (m1 + m2))
  if 0 < corr1 0 0 then (none, corr1)
  else
    let corr2 := divNeg m1 m2 corr1
    let fullCorr := tileArray n corr2
    if rejectLevel < sampleRatio n fullCorr then (none, corr2)
    else (some fullCorr, corr2)

lemma upd2_self (f : ℕ → ℕ → ℚ) (i j : ℕ) (v : ℚ) : upd2 f i j v i j = v := by
  simp [upd2]

lemma foldIdx_eq_zero_iff {L a : ℕ} (_h : a ≤ 2*L) : foldIdx L a = 0 ↔ a = L := by
  unfold foldIdx; split <;> omega

lemma sumGrid_three (f : ℕ → ℕ → ℚ) :
    sumGrid 3 3 f =
      f 0 0 + f 0 1 + f 0 2 + f 1 0 + f 1 1 + f 1 2 + f 2 0 + f 2 1 + f 2 2 := by
  have h3 : List.range 3 = [0, 1, 2] := rfl
  simp [sumGrid, sumRange, h3]
  ring

lemma genKernelStep_pos (n : ℕ) (rl m1 m2 : ℚ) (corr : ℕ → ℕ → ℚ)
    (h : 0 < corr 0 0 - (m1 + m2)) :
    genKernelStep n rl m1 m2 corr =
      (none, upd2 corr 0 0 (corr 0 0 - (m1 + m2))) := by
  unfold genKernelStep
  simp only [upd2_self]
  rw [if_pos h]

lemma genKernelStep_nonpos (n : ℕ) (rl m1 m2 : ℚ) (corr : ℕ → ℕ → ℚ)
    (h : ¬ 0 < corr 0 0 - (m1 + m2)) :
    genKernelStep n rl m1 m2 corr =
      (if rl < sampleRatio n (tileArray n
            (divNeg m1 m2 (upd2 corr 0 0 (corr 0 0 - (m1 + m2)))))
        then none
        else some (tileArray n
            (divNeg m1 m2 (upd2 corr 0 0 (corr 0 0 - (m1 + m2))))),
       divNeg m1 m2 (upd2 corr 0 0 (corr 0 0 - (m1 + m2)))) := by
  unfold genKernelStep
  simp only [upd2_self]
  rw [if_neg h]
  split <;> rfl

/-- **C7.** `_tileArray` on a square quarter array of side `n ≥ 1` produces
the array of side `2n-1` with centre at index `n-1`; the quarter value at
`(i, j)` appears at all four positions `(centre ± i, centre ± j)`; the
result is symmetric under both reflections about the centre and its centre
entry is `Q[0, 0]`. -/
theorem tileArray_tiles (n : ℕ) (hn : 1 ≤ n) (Q : ℕ → ℕ → ℚ) :
    (∀ i j, i ≤ n-1 → j ≤ n-1 →
      tileArray n Q ((n-1) + i) ((n-1) + j) = Q i j ∧
      tileArray n Q ((n-1) - i) ((n-1) + j) = Q i j ∧
      tileArray n Q ((n-1) + i) ((n-1) - j) = Q i j ∧
      tileArray n Q ((n-1) - i) ((n-1) - j) = Q i j) ∧
    (∀ r c, r ≤ 2*(n-1) → c ≤ 2*(n-1) →
      tileArray n Q (2*(n-1) - r) c = tileArray n Q r c ∧
      tileArray n Q r (2*(n-1) - c) = tileArray n Q r c) ∧
    tileArray n Q (n-1) (n-1) = Q 0 0 := by
  have hfold : ∀ a : ℕ, a ≤ 2*(n-1) → foldIdx (n-1) (2*(n-1) - a) = foldIdx (n-1) a := by
    intro a ha
    unfold foldIdx
    split <;> split <;> omega
  refine ⟨?_, ?_, ?_⟩
  · intro i j hi hj
    have h1 : foldIdx (n-1) ((n-1) + i) = i := by unfold foldIdx; split <;> omega
    have h2 : foldIdx (n-1) ((n-1) + j) = j := by unfold foldIdx; split <;> omega
    have h3 : foldIdx (n-1) ((n-1) - i) = i := foldIdx_subL hi
    have h4 : foldIdx (n-1) ((n-1) - j) = j := foldIdx_subL hj
    refine ⟨?_, ?_, ?_, ?_⟩ <;>
      rw [tileArray_eval n hn Q _ _ (by omega) (by omega)] <;>
      simp [h1, h2, h3, h4]
  · intro r c hr hc
    constructor
    · rw [tileArray_eval n hn Q _ _ (by omega) hc,
        tileArray_eval n hn Q r c hr hc, hfold r hr]
    · rw [tileArray_eval n hn Q _ _ hr (by omega),
        tileArray_eval n hn Q r c hr hc, hfold c hc]
  · rw [tileArray_eval n hn Q _ _ (by omega) (by omega)]
    have : foldIdx (n-1) (n-1) = 0 := by unfold foldIdx; split <;> omega
    rw [this]

/-- Witness for `tileArray_tiles` on the docstring example
`[[1, 2, 3], [4, 5, 6], [7, 8, 9]]`: the entry at `(centre+1, centre+2)` of
the tiled array is `Q 1 2 = 6`, and the centre entry is `Q 0 0 = 1`. -/
theorem tileArray_tiles_witness :
    tileArray 3 (fun i j => ((3*i + j + 1 : ℕ) : ℚ)) (2 + 1) (2 + 2) = 6 ∧
    tileArray 3 (fun i j => ((3*i + j + 1 : ℕ) : ℚ)) 2 2 = 1 := by
  constructor
  · exact (((tileArray_tiles 3 (by norm_num)
      (fun i j => ((3*i + j + 1 : ℕ) : ℚ))).1 1 2 (by norm_num)
        (by norm_num)).1).trans (by norm_num)
  · exact ((tileArray_tiles 3 (by norm_num)
      (fun i j => ((3*i + j + 1 : ℕ) : ℚ))).2.2).trans (by norm_num)

/-- **C2 (amended).** Per sample of `_generateKernel`: `mean1+mean2` is
subtracted from the `[0,0]` entry; the sample is skipped when the corrected
`[0,0]` entry is *strictly positive* (a corrected value of exactly `0` is
retained, contrary to the claim's "non-negative"); each retained sample is
divided by `-(mean1² + mean2²)` and tiled, and is then skipped exactly when
the `|sum| / sum|.|` ratio of the tiled surface exceeds `rejectLevel`. -/
theorem genKernel_sample_rule (n : ℕ) (hn : 1 ≤ n) (rl m1 m2 : ℚ)
    (corr : ℕ → ℕ → ℚ) :
    (0 < corr 0 0 - (m1 + m2) → (genKernelStep n rl m1 m2 corr).1 = none)
    ∧ (∀ g, (genKernelStep n rl m1 m2 corr).1 = some g →
        corr 0 0 - (m1 + m2) ≤ 0 ∧
        ∀ a b, a ≤ 2*(n-1) → b ≤ 2*(n-1) →
          g a b = (if a = n-1 ∧ b = n-1
                     then corr 0 0 - (m1 + m2)
                     else corr (foldIdx (n-1) a) (foldIdx (n-1) b))
                    / (-(m1^2 + m2^2)))
    ∧ (corr 0 0 - (m1 + m2) ≤ 0 →
        ((genKernelStep n rl m1 m2 corr).1 = none ↔
          rl < sampleRatio n (tileArray n
            (divNeg m1 m2 (upd2 corr 0 0 (corr 0 0 - (m1 + m2))))))) := by
  by_cases hpos : 0 < corr 0 0 - (m1 + m2)
  · refine ⟨fun _ => by rw [genKernelStep_pos n rl m1 m2 corr hpos], ?_, ?_⟩
    · intro g hg
      rw [genKernelStep_pos n rl m1 m2 corr hpos] at hg
      cases hg
    · intro hle
      exact absurd hle (not_le.mpr hpos)
  · have hle : corr 0 0 - (m1 + m2) ≤ 0 := not_lt.mp hpos
    refine ⟨fun hp => absurd hp hpos, ?_, ?_⟩
    · intro g hg
      rw [genKernelStep_nonpos n rl m1 m2 corr hpos] at hg
      by_cases hrl : rl < sampleRatio n (tileArray n
          (divNeg m1 m2 (upd2 corr 0 0 (corr 0 0 - (m1 + m2)))))
      · rw [if_pos hrl] at hg
        cases hg
      · rw [if_neg hrl] at hg
        have hgF := (Option.some.inj hg).symm
        refine ⟨hle, ?_⟩
        intro a b ha hb
        rw [hgF, tileArray_eval n hn _ a b ha hb]
        have hfa := foldIdx_eq_zero_iff (L := n-1) ha
        have hfb := foldIdx_eq_zero_iff (L := n-1) hb
        simp only [divNeg, upd2]
        rw [if_congr (and_congr hfa hfb) rfl rfl]
    · intro _
      rw [genKernelStep_nonpos n rl m1 m2 corr hpos]
      by_cases hrl : rl < sampleRatio n (tileArray n
          (divNeg m1 m2 (upd2 corr 0 0 (corr 0 0 - (m1 + m2)))))
      · rw [if_pos hrl]
        exact iff_of_true rfl hrl
      · rw [if_neg hrl]
        simp [hrl]

/-- Witness for `genKernel_sample_rule`: a sample whose corrected `[0,0]`
entry is `1 > 0` is skipped. -/
theorem genKernel_sample_rule_witness :
    ((0:ℚ) < (fun _ _ => (1:ℚ)) 0 0 - (0 + 0)) ∧
    (genKernelStep 2 1 0 0 (fun _ _ => (1:ℚ))).1 = none :=
  ⟨by norm_num,
   (genKernel_sample_rule 2 (by norm_num) 1 0 0 (fun _ _ => (1:ℚ))).1
     (by norm_num)⟩

/-- **C2, counterexample.** A sample whose corrected `[0,0]` entry is
exactly `0` (here `corr[0,0] = 2`, `mean1 = mean2 = 1`): the source's strict
test `corr[0, 0] > 0` does *not* skip it, so the sample is retained
(`isSome`), whereas the claim says a corrected value of `0` is rejected. -/
theorem genKernel_sample_zero_retained :
    ((fun i j => if i = 0 ∧ j = 0 then (2:ℚ) else -1) 0 0 - (1 + 1) = 0) ∧
    (genKernelStep 2 1 1 1
      (fun i j => if i = 0 ∧ j = 0 then (2:ℚ) else -1)).1.isSome = true := by
  have hnp : ¬ (0:ℚ) <
      (fun i j => if i = 0 ∧ j = 0 then (2:ℚ) else -1) 0 0 - (1 + 1) := by
    norm_num
  have hT : ∀ r c : ℕ, r ≤ 2 → c ≤ 2 →
      tileArray 2 (divNeg 1 1
        (upd2 (fun i j => if i = 0 ∧ j = 0 then (2:ℚ) else -1) 0 0 0)) r c
        = if r = 1 ∧ c = 1 then 0 else 1/2 := by
    intro r c hr hc
    rw [tileArray_eval 2 (by norm_num) _ r c (by omega) (by omega)]
    interval_cases r <;> interval_cases c <;> norm_num [divNeg, upd2, foldIdx]
  have hsum : sumGrid 3 3 (tileArray 2 (divNeg 1 1
      (upd2 (fun i j => if i = 0 ∧ j = 0 then (2:ℚ) else -1) 0 0 0))) = 4 := by
    rw [sumGrid_three,
      hT 0 0 (by norm_num) (by norm_num), hT 0 1 (by norm_num) (by norm_num),
      hT 0 2 (by norm_num) (by norm_num), hT 1 0 (by norm_num) (by norm_num),
      hT 1 1 (by norm_num) (by norm_num), hT 1 2 (by norm_num) (by norm_num),
      hT 2 0 (by norm_num) (by norm_num), hT 2 1 (by norm_num) (by norm_num),
      hT 2 2 (by norm_num) (by norm_num)]
    norm_num
  have hsumAbs : sumGrid 3 3 (fun x y => |tileArray 2 (divNeg 1 1
      (upd2 (fun i j => if i = 0 ∧ j = 0 then (2:ℚ) else -1) 0 0 0)) x y|) = 4 := by
    rw [sumGrid_three,
      hT 0 0 (by norm_num) (by norm_num), hT 0 1 (by norm_num) (by norm_num),
      hT 0 2 (by norm_num) (by norm_num), hT 1 0 (by norm_num) (by norm_num),
      hT 1 1 (by norm_num) (by norm_num), hT 1 2 (by norm_num) (by norm_num),
      hT 2 0 (by norm_num) (by norm_num), hT 2 1 (by norm_num) (by norm_num),
      hT 2 2 (by norm_num) (by norm_num)]
    have ha : |(1/2 : ℚ)| = 1/2 := abs_of_nonneg (by norm_num)
    norm_num [ha]
  have hval : (fun i j => if i = 0 ∧ j = 0 then (2:ℚ) else -1) 0 0 - (1 + 1)
      = (0:ℚ) := by norm_num
  have hR : sampleRatio 2 (tileArray 2 (divNeg 1 1
      (upd2 (fun i j => if i = 0 ∧ j = 0 then (2:ℚ) else -1) 0 0
        ((fun i j => if i = 0 ∧ j = 0 then (2:ℚ) else -1) 0 0 - (1 + 1))))) = 1 := by
    rw [hval]
    unfold sampleRatio
    rw [show (2*(2-1)+1 : ℕ) = 3 from rfl, hsum, hsumAbs]
    norm_num
  refine ⟨by norm_num, ?_⟩
  rw [genKernelStep_nonpos 2 1 1 1 _ hnp, hR]
  norm_num

/-- **C10.** `_generateKernel` mutates the caller's quarter-correlation
arrays in place: after the loop body, the `[0,0]` entry always has
`mean1+mean2` subtracted, and whenever the corrected `[0,0]` entry is
non-positive (in particular whenever it is negative, as the claim states)
the whole array is additionally divided by `-(mean1² + mean2²)` — whether or
not the sample is afterwards rejected by the sum-ratio check, which does not
touch the array. -/
theorem genKernel_mutates_inplace (n : ℕ) (rl m1 m2 : ℚ)
    (corr : ℕ → ℕ → ℚ) :
    (0 < corr 0 0 - (m1 + m2) →
      ∀ x y, (genKernelStep n rl m1 m2 corr).2 x y =
        upd2 corr 0 0 (corr 0 0 - (m1 + m2)) x y) ∧
    (corr 0 0 - (m1 + m2) ≤ 0 →
      ∀ x y, (genKernelStep n rl m1 m2 corr).2 x y =
        upd2 corr 0 0 (corr 0 0 - (m1 + m2)) x y / (-(m1^2 + m2^2))) := by
  constructor
  · intro hpos x y
    rw [genKernelStep_pos n rl m1 m2 corr hpos]
  · intro hle x y
    rw [genKernelStep_nonpos n rl m1 m2 corr (not_lt.mpr hle)]
    rfl

/-- Witness for `genKernel_mutates_inplace`: a sample with corrected `[0,0]`
entry `-1 ≤ 0` has its array rescaled in place. -/
theorem genKernel_mutates_inplace_witness :
    ((fun _ _ => (1:ℚ)) 0 0 - (1 + 1) ≤ 0) ∧
    (genKernelStep 2 1 1 1 (fun _ _ => (1:ℚ))).2 1 1 =
      upd2 (fun _ _ => (1:ℚ)) 0 0 ((fun _ _ => (1:ℚ)) 0 0 - (1 + 1)) 1 1 /
        (-((1:ℚ)^2 + 1^2)) :=
  ⟨by norm_num,
   (genKernel_mutates_inplace 2 1 1 1 (fun _ _ => (1:ℚ))).2 (by norm_num) 1 1⟩

/-! ### `BfTask.estimateGains`: per-pair sample retention

For each visit pair, `_calcMeansAndVars` produces per-amplifier means,
variances and covariances (external ISR / statistics work; embedded here as
a `PairStats` record of abstract per-region values).  The source then runs

    breaker = 0
    for amp in detector:
        if _means[ampName]*10 < _vars[ampName] or _means[ampName]*10 < _covars[ampName]:
            breaker += 1
    if breaker:
        continue                       # drops the WHOLE pair, all regions
    for k in _means.keys():
        if _vars[k]*1.3 < _covars[k] or _vars[k]*0.7 > _covars[k]:
            continue                   # drops this region's sample only
        ampMeans[k].append(...); ampVariances[k].append(...); ampCoVariances[k].append(...)
-/

/-- Per-pair means/variances/covariances, keyed by region (amplifier). -/
structure PairStats where
  ms : ℕ → ℚ
  vs : ℕ → ℚ
  cs : ℕ → ℚ

/-- The per-region sanity check `mean*10 < var or mean*10 < covar`
(floats `10` embedded exactly). -/
def sanityFail (m v c : ℚ) : Bool :=
  decide (m*10 < v) || decide (m*10 < c)

/-- The per-region 30% variance/covariance agreement check
`vars*1.3 < covars or vars*0.7 > covars`. -/
def dropValue (v c : ℚ) : Bool :=
  decide (v * (13/10) < c) || decide (v * (7/10) > c)

/-- Accumulated `(ampMeans, ampVariances, ampCoVariances)` lists per
region. -/
def appendTriple (acc : ℕ → List ℚ × List ℚ × List ℚ) (k : ℕ) (m v c : ℚ) :
    ℕ → List ℚ × List ℚ × List ℚ :=
  fun k2 => if k2 = k then
      ((acc k).1 ++ [m], (acc k).2.1 ++ [v], (acc k).2.2 ++ [c])
    else acc k2

/-- Body of the second per-pair loop: append region `k`'s sample unless the
30% check drops it. -/
def regionStep (p : PairStats) (acc : ℕ → List ℚ × List ℚ × List ℚ)
    (k : ℕ) : ℕ → List ℚ × List ℚ × List ℚ :=
  if dropValue (p.vs k) (p.cs k) then acc
  else appendTriple acc k (p.ms k) (p.vs k) (p.cs k)

/-- Processing of one visit pair inside `estimateGains`: if any region fails
the sanity check the whole pair is skipped (`continue`); otherwise each
region's sample is appended unless its 30% check drops it. -/
def pairStep (keys : List ℕ) (acc : ℕ → List ℚ × List ℚ × List ℚ)
    (p : PairStats) : ℕ → List ℚ × List ℚ × List ℚ :=
  if keys.any (fun k => sanityFail (p.ms k) (p.vs k) (p.cs k)) then acc
  else keys.foldl (regionStep p) acc

/-- The accumulation loop of `estimateGains` over all visit pairs, starting
from empty per-region lists. -/
def retainedTriples (keys : List ℕ) (pairs : List PairStats) :
    ℕ → List ℚ × List ℚ × List ℚ :=
  pairs.foldl (pairStep keys) (fun _ => ([], [], []))

lemma sanityFail_eq_false {m v c : ℚ} (h1 : ¬ m*10 < v) (h2 : ¬ m*10 < c) :
    sanityFail m v c = false := by
  unfold sanityFail
  rw [decide_eq_false h1, decide_eq_false h2]
  rfl

lemma dropValue_eq_false {v c : ℚ} (h1 : ¬ v * (13/10) < c)
    (h2 : ¬ v * (7/10) > c) : dropValue v c = false := by
  unfold dropValue
  rw [decide_eq_false h1, decide_eq_false h2]
  rfl

lemma regionStep_other (p : PairStats) (acc : ℕ → List ℚ × List ℚ × List ℚ)
    (k k2 : ℕ) (h : k2 ≠ k) : regionStep p acc k k2 = acc k2 := by
  unfold regionStep appendTriple
  split
  · rfl
  · simp [h]

lemma regionFold_notmem (p : PairStats) (l : List ℕ) (k : ℕ) (hk : k ∉ l) :
    ∀ acc, (l.foldl (regionStep p) acc) k = acc k := by
  induction l with
  | nil => intro acc; rfl
  | cons a t ih =>
    intro acc
    have hka : k ≠ a := fun he => hk (he ▸ List.mem_cons_self a t)
    have hkt : k ∉ t := fun ht => hk (List.mem_cons_of_mem a ht)
    rw [List.foldl_cons, ih hkt, regionStep_other p acc a k hka]

lemma regionFold_mem (p : PairStats) (l : List ℕ) (k : ℕ) (hnd : l.Nodup)
    (hk : k ∈ l) : ∀ acc, (l.foldl (regionStep p) acc) k =
      if dropValue (p.vs k) (p.cs k) then acc k
      else ((acc k).1 ++ [p.ms k], (acc k).2.1 ++ [p.vs k],
            (acc k).2.2 ++ [p.cs k]) := by
  induction l with
  | nil => cases hk
  | cons a t ih =>
    intro acc
    rw [List.foldl_cons]
    rcases List.mem_cons.mp hk with rfl | hkt
    · have hknt : k ∉ t := (List.nodup_cons.mp hnd).1
      rw [regionFold_notmem p t k hknt]
      unfold regionStep appendTriple
      split
      · rfl
      · simp
    · have hka : k ≠ a := by
        intro he
        exact (List.nodup_cons.mp hnd).1 (he ▸ hkt)
      rw [ih (List.nodup_cons.mp hnd).2 hkt,
        regionStep_other p acc a k hka]

/-- **C3 (amended).** In `estimateGains`, when any region of a visit pair
fails the sanity check `mean*10 < variance or mean*10 < covariance`, the
*entire pair* is skipped: no region of that pair contributes a sample (the
`continue` acts on the pair loop, not on the offending region alone).  When
no region fails the sanity check, region `k`'s sample is appended exactly
when its variance/covariance 30% agreement check passes; regions outside
the key list are untouched.  The rejection only skips data — it is logged,
not fatal. -/
theorem estimateGains_pair_rejection (keys : List ℕ)
    (acc : ℕ → List ℚ × List ℚ × List ℚ) (p : PairStats) :
    ((keys.any (fun k => sanityFail (p.ms k) (p.vs k) (p.cs k))) = true →
      ∀ k, pairStep keys acc p k = acc k)
    ∧ ((keys.any (fun k => sanityFail (p.ms k) (p.vs k) (p.cs k))) = false →
      (∀ k, k ∉ keys → pairStep keys acc p k = acc k)
      ∧ (keys.Nodup → ∀ k, k ∈ keys →
          pairStep keys acc p k =
            if dropValue (p.vs k) (p.cs k) then acc k
            else ((acc k).1 ++ [p.ms k], (acc k).2.1 ++ [p.vs k],
                  (acc k).2.2 ++ [p.cs k]))) := by
  constructor
  · intro hany k
    unfold pairStep
    rw [if_pos hany]
  · intro hany
    constructor
    · intro k hk
      unfold pairStep
      rw [if_neg (by rw [hany]; exact Bool.false_ne_true)]
      exact regionFold_notmem p keys k hk acc
    · intro hnd k hk
      unfold pairStep
      rw [if_neg (by rw [hany]; exact Bool.false_ne_true)]
      exact regionFold_mem p keys k hnd hk acc

/-- Witness for `estimateGains_pair_rejection`: with no sanity failure and a
passing 30% check, region `1`'s sample is appended. -/
theorem estimateGains_pair_rejection_witness :
    pairStep [0, 1] (fun _ => ([], [], []))
      ⟨fun _ => 100, fun _ => 50, fun _ => 50⟩ 1 = ([100], [50], [50]) := by
  have hs : sanityFail (100:ℚ) 50 50 = false :=
    sanityFail_eq_false (by norm_num) (by norm_num)
  have hany : ([0, 1].any (fun k =>
      sanityFail ((⟨fun _ => 100, fun _ => 50, fun _ => 50⟩ : PairStats).ms k)
        ((⟨fun _ => 100, fun _ => 50, fun _ => 50⟩ : PairStats).vs k)
        ((⟨fun _ => 100, fun _ => 50, fun _ => 50⟩ : PairStats).cs k))) = false := by
    show (sanityFail (100:ℚ) 50 50 || (sanityFail (100:ℚ) 50 50 || false)) = false
    rw [hs]
    rfl
  have happ := ((estimateGains_pair_rejection [0, 1] (fun _ => ([], [], []))
      ⟨fun _ => 100, fun _ => 50, fun _ => 50⟩).2 hany).2 (by simp) 1 (by simp)
  rw [happ]
  have hd : dropValue (50:ℚ) 50 = false :=
    dropValue_eq_false (by norm_num) (by norm_num)
  show (if dropValue (50:ℚ) 50 = true
      then (([]:List ℚ), ([]:List ℚ), ([]:List ℚ))
      else ([100], [50], [50])) = ([100], [50], [50])
  rw [hd]
  rfl

/-- **C3, counterexample.** Two regions; region `0` fails the sanity check
(`1*10 < 100`), region `1` passes both the sanity check and the 30% check.
The claim says region `1` of the pair is unaffected, but the source skips
the whole pair: region `1` ends with no retained sample. -/
theorem estimateGains_pair_rejection_cex :
    sanityFail ((fun k => if k = 0 then (1:ℚ) else 100) 1)
      ((fun k => if k = 0 then (100:ℚ) else 50) 1) ((fun _ => (50:ℚ)) 1) = false ∧
    dropValue ((fun k => if k = 0 then (100:ℚ) else 50) 1) ((fun _ => (50:ℚ)) 1) = false ∧
    pairStep [0, 1] (fun _ => ([], [], []))
      ⟨fun k => if k = 0 then (1:ℚ) else 100,
       fun k => if k = 0 then (100:ℚ) else 50,
       fun _ => (50:ℚ)⟩ 1 = ([], [], []) := by
  refine ⟨?_, ?_, ?_⟩
  · show sanityFail (100:ℚ) 50 50 = false
    exact sanityFail_eq_false (by norm_num) (by norm_num)
  · show dropValue (50:ℚ) 50 = false
    exact dropValue_eq_false (by norm_num) (by norm_num)
  · have hs0 : sanityFail (1:ℚ) 100 50 = true := by
      unfold sanityFail
      rw [decide_eq_true (by norm_num : (1:ℚ)*10 < 100)]
      rfl
    have hc2 : ([0, 1].any (fun k =>
        sanityFail ((⟨fun k => if k = 0 then (1:ℚ) else 100,
            fun k => if k = 0 then (100:ℚ) else 50,
            fun _ => (50:ℚ)⟩ : PairStats).ms k)
          ((⟨fun k => if k = 0 then (1:ℚ) else 100,
            fun k => if k = 0 then (100:ℚ) else 50,
            fun _ => (50:ℚ)⟩ : PairStats).vs k)
          ((⟨fun k => if k = 0 then (1:ℚ) else 100,
            fun k => if k = 0 then (100:ℚ) else 50,
            fun _ => (50:ℚ)⟩ : PairStats).cs k))) = true := by
      show (sanityFail (1:ℚ) 100 50 || (sanityFail (100:ℚ) 50 50 || false)) = true
      rw [hs0]
      rfl
    unfold pairStep
    rw [if_pos hc2]

/-! ### `BfTask._iterativeRegression`

Outlier-rejecting iterative least squares.  `np.linalg.lstsq` on the
one-column design matrix `x[:, np.newaxis]` returns the least-squares slope
`Σxy / Σx²` (minimum-norm solution `0` when `x` is the zero vector, which the
rational embedding's `q / 0 = 0` convention also yields); on the two-column
matrix `[x, 1]` it returns the ordinary least-squares pair given by the
normal equations below (the degenerate collinear case, where numpy produces
the minimum-norm solution, is embedded by the same formulas with a zero
denominator).  The clipped mean and the clipped standard deviation of the
residuals come from the external statistics engine and are abstract
parameters `mc`, `sc`.

A subtlety of the source is embedded faithfully: the loop breaks when
`np.shape(np.where(index))[1] == 0`, and `index` is already the tuple
returned by `np.where(cond)` — so this counts the *nonzero* outlier
positions: an outlier at position 0 alone does not trigger deletion, the
loop breaks returning the current fit.  With `maxIter = 0` the `while` body
never runs and the final `return slope` raises `NameError` (embedded as
`none`). -/

/-- Least-squares slope of `np.linalg.lstsq(x[:, np.newaxis], y)`. -/
def lstsqSlopeOrigin (x y : List ℚ) : ℚ :=
  (List.zipWith (fun a b => a * b) x y).sum / (x.map (fun a => a * a)).sum

/-- Least-squares `(slope, intercept)` of
`np.linalg.lstsq(np.vstack([x, np.ones(len(x))]).T, y)` by the normal
equations. -/
def lstsqAffine (x y : List ℚ) : ℚ × ℚ :=
  ((((x.length : ℚ)) * (List.zipWith (fun a b => a * b) x y).sum
      - x.sum * y.sum) /
    (((x.length : ℚ)) * (x.map (fun a => a * a)).sum - x.sum * x.sum),
   (y.sum * (x.map (fun a => a * a)).sum
      - x.sum * (List.zipWith (fun a b => a * b) x y).sum) /
    (((x.length : ℚ)) * (x.map (fun a => a * a)).sum - x.sum * x.sum))

/-- Positions of the residual outliers:
`np.where((res > resMean+nSigmaClip*resStd) | (res < resMean-nSigmaClip*resStd))`. -/
def outIdx (res : List ℚ) (rm rs nsc : ℚ) : List ℕ :=
  (res.enum.filter (fun pr =>
    decide (rm + nsc * rs < pr.2) || decide (pr.2 < rm - nsc * rs))).map
    (fun pr => pr.1)

/-- `np.delete(l, idx)`: drop the listed positions. -/
def deleteIdx (l : List ℚ) (idx : List ℕ) : List ℚ :=
  (l.enum.filter (fun pr => !(idx.contains pr.1))).map (fun pr => pr.2)

/-- The origin-fixed `while` loop of `_iterativeRegression`, with the number
of remaining allowed iterations as fuel (`fuel = maxIter - nIter`); at
`fuel = 1` the `nIter >= maxIter` disjunct breaks the loop after the fit. -/
def iterRegressFixGo (mc sc : List ℚ → ℚ) (nsc : ℚ) :
    ℕ → List ℚ → List ℚ → ℚ
  | 0, x, y => lstsqSlopeOrigin x y
  | 1, x, y => lstsqSlopeOrigin x y
  | f+2, x, y =>
    let slope := lstsqSlopeOrigin x y
    let res := List.zipWith (fun yi xi => yi - slope * xi) y x
    let idx := outIdx res (mc res) (sc res) nsc
    if (idx.filter (fun i => i != 0)).isEmpty then slope
    else iterRegressFixGo mc sc nsc (f+1) (deleteIdx x idx) (deleteIdx y idx)

/-- `_iterativeRegression` with `fixThroughOrigin=True`: returns
`(slope, 0)`. -/
def iterRegressFix (mc sc : List ℚ → ℚ) (nsc : ℚ) (maxIter : ℕ)
    (x y : List ℚ) : Option (ℚ × ℚ) :=
  if maxIter = 0 then none
  else some (iterRegressFixGo mc sc nsc maxIter x y, 0)

/-- The free-intercept `while` loop of `_iterativeRegression`. -/
def iterRegressFreeGo (mc sc : List ℚ → ℚ) (nsc : ℚ) :
    ℕ → List ℚ → List ℚ → ℚ × ℚ
  | 0, x, y => lstsqAffine x y
  | 1, x, y => lstsqAffine x y
  | f+2, x, y =>
    let si := lstsqAffine x y
    let res := List.zipWith (fun yi xi => yi - si.1 * xi - si.2) y x
    let idx := outIdx res (mc res) (sc res) nsc
    if (idx.filter (fun i => i != 0)).isEmpty then si
    else iterRegressFreeGo mc sc nsc (f+1) (deleteIdx x idx) (deleteIdx y idx)

/-- `_iterativeRegression` with `fixThroughOrigin=False`. -/
def iterRegressFree (mc sc : List ℚ → ℚ) (nsc : ℚ) (maxIter : ℕ)
    (x y : List ℚ) : Option (ℚ × ℚ) :=
  if maxIter = 0 then none
  else some (iterRegressFreeGo mc sc nsc maxIter x y)

lemma outIdx_singleton_zero (rm rs nsc : ℚ) :
    ((outIdx [0] rm rs nsc).filter (fun i => i != 0)) = [] := by
  unfold outIdx
  by_cases h1 : rm + nsc * rs < (0:ℚ)
  · by_cases h2 : (0:ℚ) < rm - nsc * rs <;>
      simp [List.filter, List.enum, h1, h2]
  · by_cases h2 : (0:ℚ) < rm - nsc * rs <;>
      simp [List.filter, List.enum, h1, h2]

/-- **C8 (amended).** `_iterativeRegression` performs no minimum-point check
and raises no `InsufficientDataError` (no such exception exists in the
source).  With a single data point `(x0, y0)`, `x0 ≠ 0`, the origin-fixed
fit simply returns the exact one-point slope `y0 / x0` with intercept `0`,
for every behaviour of the clipped statistics and any positive iteration
budget. -/
theorem iterRegress_one_point (mc sc : List ℚ → ℚ) (nsc : ℚ) (maxIter : ℕ)
    (x0 y0 : ℚ) (hm : 1 ≤ maxIter) (hx : x0 ≠ 0) :
    iterRegressFix mc sc nsc maxIter [x0] [y0] = some (y0 / x0, 0) := by
  have hslope : lstsqSlopeOrigin [x0] [y0] = y0 / x0 := by
    unfold lstsqSlopeOrigin
    simp only [List.zipWith, List.map, List.sum_cons, List.sum_nil, add_zero]
    exact mul_div_mul_left y0 x0 hx
  have hres : List.zipWith (fun yi xi => yi - lstsqSlopeOrigin [x0] [y0] * xi)
      [y0] [x0] = [0] := by
    rw [hslope]
    simp only [List.zipWith]
    rw [div_mul_cancel₀ y0 hx, sub_self]
  have hgo : ∀ f, 1 ≤ f → iterRegressFixGo mc sc nsc f [x0] [y0] = y0 / x0 := by
    intro f hf
    match f, hf with
    | 1, _ => exact hslope
    | (f+2), _ =>
      rw [iterRegressFixGo]
      simp only [hres, outIdx_singleton_zero, List.isEmpty_nil, if_true]
      exact hslope
  unfold iterRegressFix
  rw [if_neg (by omega), hgo maxIter hm]

/-- Witness for `iterRegress_one_point`: a concrete one-point fit. -/
theorem iterRegress_one_point_witness :
    iterRegressFix (fun _ => (0:ℚ)) (fun _ => 0) 3 3 [2] [6] = some (3, 0) :=
  (iterRegress_one_point (fun _ => (0:ℚ)) (fun _ => 0) 3 3 2 6 (by norm_num)
    (by norm_num)).trans (by norm_num)

/-- **C8, counterexample.** A call with a single point (fewer than 2): the
claim demands failure with `InsufficientDataError`, but the source returns
a fit normally. -/
theorem iterRegress_single_point_no_error :
    ([2] : List ℚ).length < 2 ∧
    iterRegressFix (fun _ => (0:ℚ)) (fun _ => 0) 3 5 [2] [6] ≠ none := by
  constructor
  · decide
  · unfold iterRegressFix
    simp

/-! ### `BfTask.estimateGains`: fit and gain

For each amplifier the source fits `covariance` against `mean` three times
(raw `scipy.stats.linregress`, used only for logging and omitted here;
origin-fixed; free-intercept), selects the slope according to
`config.fixPtcThroughOrigin` and sets `gains[ampName] = 1.0/slopeToUse`
unconditionally — there is no zero-slope guard and no `DegenerateFitError`
in the source (`1.0/0.0` on a numpy float is `inf` with a warning, not an
exception; the rational embedding renders the same non-raising division
with its `1/0 = 0` convention). -/

/-- The slope selected by `config.fixPtcThroughOrigin`. -/
def selSlope (mc sc : List ℚ → ℚ) (nsc : ℚ) (maxIter : ℕ) (fixPtc : Bool)
    (x y : List ℚ) : ℚ :=
  if fixPtc then iterRegressFixGo mc sc nsc maxIter x y
  else (iterRegressFreeGo mc sc nsc maxIter x y).1

/-- Per-amplifier body of the gain loop of `estimateGains`: run both
regressions on `(means, covariances)` and store `1.0/slopeToUse` in the
gains map (the map is embedded as a function, `0` standing for the absent
keys of the Python dict). -/
def estBody (mc sc : List ℚ → ℚ) (nsc : ℚ) (maxIter : ℕ) (fixPtc : Bool)
    (keys : List ℕ) (pairs : List PairStats) (gains : ℕ → ℚ) (k : ℕ) :
    Option (ℕ → ℚ) := do
  let t := retainedTriples keys pairs k
  let sFix ← iterRegressFix mc sc nsc maxIter t.1 t.2.2
  let sUnfix ← iterRegressFree mc sc nsc maxIter t.1 t.2.2
  let slopeToUse := if fixPtc then sFix.1 else sUnfix.1
  pure (fun k2 => if k2 = k then 1 / slopeToUse else gains k2)

/-- `estimateGains`' fit-and-gain stage: accumulate the per-pair samples
(`retainedTriples`) and produce the per-amplifier gains. -/
def estGains (mc sc : List ℚ → ℚ) (nsc : ℚ) (maxIter : ℕ) (fixPtc : Bool)
    (keys : List ℕ) (pairs : List PairStats) : Option (ℕ → ℚ) :=
  keys.foldlM (estBody mc sc nsc maxIter fixPtc keys pairs) (fun _ => 0)

lemma estBody_eval (mc sc : List ℚ → ℚ) (nsc : ℚ) (maxIter : ℕ)
    (fixPtc : Bool) (keys : List ℕ) (pairs : List PairStats)
    (gains : ℕ → ℚ) (k : ℕ) (hm : 1 ≤ maxIter) :
    estBody mc sc nsc maxIter fixPtc keys pairs gains k =
      some (fun k2 => if k2 = k then
          1 / selSlope mc sc nsc maxIter fixPtc
            (retainedTriples keys pairs k).1 (retainedTriples keys pairs k).2.2
        else gains k2) := by
  have h0 : maxIter ≠ 0 := by omega
  unfold estBody iterRegressFix iterRegressFree selSlope
  simp [h0]

lemma estFold (mc sc : List ℚ → ℚ) (nsc : ℚ) (maxIter : ℕ) (fixPtc : Bool)
    (keys : List ℕ) (pairs : List PairStats) (hm : 1 ≤ maxIter) :
    ∀ (l : List ℕ) (acc : ℕ → ℚ),
      ∃ g, l.foldlM (estBody mc sc nsc maxIter fixPtc keys pairs) acc
          = some g
        ∧ (∀ k, k ∈ l → g k = 1 / selSlope mc sc nsc maxIter fixPtc
            (retainedTriples keys pairs k).1
            (retainedTriples keys pairs k).2.2)
        ∧ (∀ k, k ∉ l → g k = acc k) := by
  intro l
  induction l with
  | nil =>
    intro acc
    exact ⟨acc, rfl, fun k hk => absurd hk (List.not_mem_nil k), fun _ _ => rfl⟩
  | cons a t ih =>
    intro acc
    rw [List.foldlM_cons,
      estBody_eval mc sc nsc maxIter fixPtc keys pairs acc a hm]
    obtain ⟨g, hg, hmem, hnot⟩ := ih (fun k2 => if k2 = a then
        1 / selSlope mc sc nsc maxIter fixPtc
          (retainedTriples keys pairs a).1 (retainedTriples keys pairs a).2.2
      else acc k2)
    refine ⟨g, hg, ?_, ?_⟩
    · intro k hk
      rcases List.mem_cons.mp hk with rfl | hkt
      · by_cases hka : k ∈ t
        · exact hmem k hka
        · rw [hnot k hka]
          simp
      · exact hmem k hkt
    · intro k hk
      have hka : k ≠ a := fun he => hk (he ▸ List.mem_cons_self a t)
      have hkt : k ∉ t := fun ht => hk (List.mem_cons_of_mem a ht)
      rw [hnot k hkt]
      simp [hka]

/-- **C4 (amended).** For every region, `estimateGains` returns the gain
`1 / slope`, where the slope is that of the iterative regression of
covariance against mean over the retained samples, chosen from the
origin-fixed or free-intercept fit according to `fixPtcThroughOrigin`.  The
computation is unconditional: no zero-or-near-zero-slope check exists, no
`DegenerateFitError` is raised, and a gain entry is produced for every
region (for a zero slope, numpy's `1.0/0.0` yields `inf` with a warning
rather than an exception). -/
theorem estGains_formula (mc sc : List ℚ → ℚ) (nsc : ℚ) (maxIter : ℕ)
    (fixPtc : Bool) (keys : List ℕ) (pairs : List PairStats)
    (hm : 1 ≤ maxIter) :
    ∃ g, estGains mc sc nsc maxIter fixPtc keys pairs = some g ∧
      ∀ k, k ∈ keys → g k = 1 / selSlope mc sc nsc maxIter fixPtc
        (retainedTriples keys pairs k).1 (retainedTriples keys pairs k).2.2 := by
  obtain ⟨g, hg, hmem, _⟩ :=
    estFold mc sc nsc maxIter fixPtc keys pairs hm keys (fun _ => 0)
  exact ⟨g, hg, hmem⟩

/-- Witness for `estGains_formula` on a one-region, no-pair input. -/
theorem estGains_formula_witness :
    ∃ g, estGains (fun _ => (0:ℚ)) (fun _ => 0) 3 1 true [0] [] = some g ∧
      g 0 = 1 / selSlope (fun _ => (0:ℚ)) (fun _ => 0) 3 1 true
        (retainedTriples [0] [] 0).1 (retainedTriples [0] [] 0).2.2 := by
  obtain ⟨g, hg, hmem⟩ := estGains_formula (fun _ => (0:ℚ)) (fun _ => 0) 3 1
    true [0] [] (by norm_num)
  exact ⟨g, hg, hmem 0 (by simp)⟩

/-- **C4, counterexample.** A region whose retained samples are
`means = [100]`, `covariances = [0]`: the fitted origin-fixed slope is `0`,
yet `estimateGains` still returns a gains map (no `DegenerateFitError`, no
failure) — numpy's `1.0/0.0` is `inf`, not an exception. -/
theorem estGains_zero_slope_no_error :
    selSlope (fun _ => (0:ℚ)) (fun _ => 0) 3 1 true
      (retainedTriples [0]
        [(⟨fun _ => 100, fun _ => 0, fun _ => 0⟩ : PairStats)] 0).1
      (retainedTriples [0]
        [(⟨fun _ => 100, fun _ => 0, fun _ => 0⟩ : PairStats)] 0).2.2 = 0 ∧
    (estGains (fun _ => (0:ℚ)) (fun _ => 0) 3 1 true [0]
      [(⟨fun _ => 100, fun _ => 0, fun _ => 0⟩ : PairStats)]).isSome = true := by
  have hsf : sanityFail (100:ℚ) 0 0 = false :=
    sanityFail_eq_false (by norm_num) (by norm_num)
  have hdv : dropValue (0:ℚ) 0 = false :=
    dropValue_eq_false (by norm_num) (by norm_num)
  have hcond : ([0].any fun k =>
      sanityFail ((⟨fun _ => 100, fun _ => 0, fun _ => 0⟩ : PairStats).ms k)
        ((⟨fun _ => 100, fun _ => 0, fun _ => 0⟩ : PairStats).vs k)
        ((⟨fun _ => 100, fun _ => 0, fun _ => 0⟩ : PairStats).cs k)) = false := by
    show (sanityFail (100:ℚ) 0 0 || false) = false
    rw [hsf]
    rfl
  have hdv2 : dropValue
      ((⟨fun _ => 100, fun _ => 0, fun _ => 0⟩ : PairStats).vs 0)
      ((⟨fun _ => 100, fun _ => 0, fun _ => 0⟩ : PairStats).cs 0) = false := hdv
  have ht : retainedTriples [0]
      [(⟨fun _ => 100, fun _ => 0, fun _ => 0⟩ : PairStats)] 0
      = ([100], [0], [0]) := by
    show pairStep [0] (fun _ => ([], [], []))
      (⟨fun _ => 100, fun _ => 0, fun _ => 0⟩ : PairStats) 0 = ([100], [0], [0])
    unfold pairStep
    rw [hcond]
    simp only [Bool.false_eq_true, if_false, List.foldl_cons, List.foldl_nil]
    unfold regionStep
    rw [hdv2]
    simp only [Bool.false_eq_true, if_false]
    rfl
  constructor
  · rw [ht]
    show selSlope (fun _ => (0:ℚ)) (fun _ => 0) 3 1 true [100] [0] = 0
    unfold selSlope
    rw [if_pos rfl, iterRegressFixGo]
    unfold lstsqSlopeOrigin
    simp only [List.zipWith, List.map, List.sum_cons, List.sum_nil]
    norm_num
  · unfold estGains
    rw [List.foldlM_cons,
      estBody_eval (fun _ => (0:ℚ)) (fun _ => 0) 3 1 true [0]
        [(⟨fun _ => 100, fun _ => 0, fun _ => 0⟩ : PairStats)]
        (fun _ => 0) 0 (le_refl 1)]
    simp

/-! ### `BfTask._prepareImage`

The source clones the exposure, then for every amplifier (at *both* levels)
rescales the amp's sub-image in place by that amplifier's gain from the
supplied gains table and subtracts `mean*gain`, where `mean` is the clipped
mean of the amp region before scaling; a parallel clone `temp` receives only
the scaling.  At `level == 'AMP'` it returns per-amp views and border-
excluded means; at `level == 'CCD'` it returns a single dict entry keyed by
the detector id whose value is `rescaleIm` — the loop variable holding the
view of the *last* amplifier's bounding box — plus the clipped mean of the
border-excluded whole `temp` image.  With an empty amplifier list the CCD
branch raises `NameError` (`rescaleIm` unbound), embedded as `none`.
Views into the mutated image are embedded as `(finalImage, bbox)` pairs:
`finalMi` plus a bbox per map entry. -/

structure BBox where
  x0 : ℕ
  y0 : ℕ
  x1 : ℕ
  y1 : ℕ
deriving DecidableEq

/-- Membership of a pixel in a bounding box. -/
def inBox (b : BBox) (x y : ℕ) : Prop :=
  b.x0 ≤ x ∧ x < b.x1 ∧ b.y0 ≤ y ∧ y < b.y1

instance (b : BBox) (x y : ℕ) : Decidable (inBox b x y) := by
  unfold inBox
  infer_instance

structure Amp where
  name : ℕ
  bbox : BBox
deriving DecidableEq

structure Exposure where
  img : ℕ → ℕ → ℚ
  width : ℕ
  height : ℕ
  amps : List Amp
  detId : ℕ

inductive Level
  | AMP
  | CCD
deriving DecidableEq

/-- Keys of the returned dicts: amplifier name or detector id. -/
inductive DetKey
  | ampKey (a : ℕ)
  | ccdKey (d : ℕ)
deriving DecidableEq

/-- In-place `rescaleIm *= gain` on a bounding-box view. -/
def scaleIn (b : BBox) (g : ℚ) (f : ℕ → ℕ → ℚ) : ℕ → ℕ → ℚ :=
  fun x y => if inBox b x y then f x y * g else f x y

/-- In-place `rescaleIm -= mean*gain` on a bounding-box view. -/
def subIn (b : BBox) (v : ℚ) (f : ℕ → ℕ → ℚ) : ℕ → ℕ → ℚ :=
  fun x y => if inBox b x y then f x y - v else f x y

/-- The Python slice `[border:-border, border:-border]` of a view. -/
def shrinkBox (b : BBox) (border : ℕ) : BBox :=
  ⟨b.x0 + border, b.y0 + border, b.x1 - border, b.y1 - border⟩

/-- Abstract clipped-mean of the external statistics engine, taking the
image and the bounding box of the view it is applied to. -/
def MeanClip : Type := (ℕ → ℕ → ℚ) → BBox → ℚ

structure PrepState where
  mi : ℕ → ℕ → ℚ
  temp : ℕ → ℕ → ℚ
  means : List (DetKey × ℚ)
  areas : List (DetKey × BBox)

/-- The per-amplifier loop body of `_prepareImage`. -/
def prepStep (meanClip : MeanClip) (border : ℕ) (level : Level)
    (gains : ℕ → ℚ) (st : PrepState) (amp : Amp) : PrepState :=
  let mean := meanClip st.mi amp.bbox
  let gain := gains amp.name
  let mi1 := scaleIn amp.bbox gain st.mi
  let temp1 := scaleIn amp.bbox gain st.temp
  let mi2 := subIn amp.bbox (mean * gain) mi1
  if level = Level.AMP then
    { mi := mi2, temp := temp1,
      means := st.means ++
        [(DetKey.ampKey amp.name, meanClip temp1 (shrinkBox amp.bbox border))],
      areas := st.areas ++ [(DetKey.ampKey amp.name, amp.bbox)] }
  else
    { mi := mi2, temp := temp1, means := st.means, areas := st.areas }

def fullBox (e : Exposure) : BBox := ⟨0, 0, e.width, e.height⟩

structure PrepResult where
  finalMi : ℕ → ℕ → ℚ
  areas : List (DetKey × BBox)
  means : List (DetKey × ℚ)

/-- `BfTask._prepareImage`. -/
def prepareImage (meanClip : MeanClip) (border : ℕ) (level : Level)
    (gains : ℕ → ℚ) (e : Exposure) : Option PrepResult :=
  let st := e.amps.foldl (prepStep meanClip border level gains)
    { mi := e.img, temp := e.img, means := [], areas := [] }
  match level with
  | Level.AMP => some ⟨st.mi, st.areas, st.means⟩
  | Level.CCD =>
    match e.amps.getLast? with
    | none => none
    | some lastAmp =>
      some ⟨st.mi,
        [(DetKey.ccdKey e.detId, lastAmp.bbox)],
        [(DetKey.ccdKey e.detId,
          meanClip st.temp (shrinkBox (fullBox e) border))]⟩

lemma prepStep_mi_out (meanClip : MeanClip) (border : ℕ) (level : Level)
    (gains : ℕ → ℚ) (st : PrepState) (a : Amp) (x y : ℕ)
    (h : ¬ inBox a.bbox x y) :
    (prepStep meanClip border level gains st a).mi x y = st.mi x y := by
  unfold prepStep
  split <;> simp [scaleIn, subIn, h]

lemma prepFold_mi_out (meanClip : MeanClip) (border : ℕ) (level : Level)
    (gains : ℕ → ℚ) (l : List Amp) (x y : ℕ)
    (h : ∀ b ∈ l, ¬ inBox b.bbox x y) :
    ∀ st, (l.foldl (prepStep meanClip border level gains) st).mi x y
      = st.mi x y := by
  induction l with
  | nil => intro st; rfl
  | cons b t ih =>
    intro st
    rw [List.foldl_cons, ih (fun b2 hb2 => h b2 (List.mem_cons_of_mem b hb2)),
      prepStep_mi_out meanClip border level gains st b x y
        (h b (List.mem_cons_self b t))]

/-- **C1 (amended).** At CCD level `_prepareImage` returns a working-image
map with exactly one entry, keyed by the detector id — but the entry's
region is the *last amplifier's* bounding box (the view `rescaleIm` left
over from the loop), not the whole sensor, and the pixel values *are*
rescaled per amplifier by the supplied gains table (no gain of `1.0` is
substituted): a pixel inside amplifier `a` ends up as
`img*gain(a) - clippedMean(region a)*gain(a)`.  Stated for any amplifier
list in which `a`'s region is disjoint from every other listed amplifier
and any statistics engine that only reads the view it is given. -/
theorem prepareImage_ccd (meanClip : MeanClip) (border : ℕ) (gains : ℕ → ℚ)
    (e : Exposure) (l1 l2 : List Amp) (a : Amp)
    (heq : e.amps = l1 ++ a :: l2)
    (hext : ∀ f g b, (∀ u v, inBox b u v → f u v = g u v) →
      meanClip f b = meanClip g b)
    (hdisj : ∀ b, b ∈ l1 ++ l2 → ∀ u v, inBox a.bbox u v → ¬ inBox b.bbox u v)
    (x y : ℕ) (hxy : inBox a.bbox x y) :
    ∃ r la, prepareImage meanClip border Level.CCD gains e = some r
      ∧ e.amps.getLast? = some la
      ∧ r.areas = [(DetKey.ccdKey e.detId, la.bbox)]
      ∧ r.finalMi x y
          = e.img x y * gains a.name - meanClip e.img a.bbox * gains a.name := by
  have hne : e.amps ≠ [] := by rw [heq]; simp
  obtain ⟨la, hla⟩ : ∃ la, e.amps.getLast? = some la :=
    ⟨e.amps.getLast hne, List.getLast?_eq_getLast e.amps hne⟩
  refine ⟨⟨(e.amps.foldl (prepStep meanClip border Level.CCD gains)
        ⟨e.img, e.img, [], []⟩).mi,
      [(DetKey.ccdKey e.detId, la.bbox)],
      [(DetKey.ccdKey e.detId,
        meanClip (e.amps.foldl (prepStep meanClip border Level.CCD gains)
          ⟨e.img, e.img, [], []⟩).temp (shrinkBox (fullBox e) border))]⟩,
    la, ?_, hla, rfl, ?_⟩
  · unfold prepareImage
    rw [hla]
  · rw [heq, List.foldl_append, List.foldl_cons]
    have hl2 : ∀ b ∈ l2, ¬ inBox b.bbox x y := fun b hb =>
      hdisj b (List.mem_append.mpr (Or.inr hb)) x y hxy
    show (List.foldl (prepStep meanClip border Level.CCD gains)
        (prepStep meanClip border Level.CCD gains
          (List.foldl (prepStep meanClip border Level.CCD gains)
            ⟨e.img, e.img, [], []⟩ l1) a) l2).mi x y = _
    rw [prepFold_mi_out meanClip border Level.CCD gains l2 x y hl2]
    have hagree : ∀ u v, inBox a.bbox u v →
        (l1.foldl (prepStep meanClip border Level.CCD gains)
          ⟨e.img, e.img, [], []⟩).mi u v = e.img u v := by
      intro u v huv
      exact prepFold_mi_out meanClip border Level.CCD gains l1 u v
        (fun b hb => hdisj b (List.mem_append.mpr (Or.inl hb)) u v huv) _
    unfold prepStep
    rw [if_neg (by decide : ¬ (Level.CCD = Level.AMP))]
    show (subIn a.bbox
        (meanClip (l1.foldl (prepStep meanClip border Level.CCD gains)
          ⟨e.img, e.img, [], []⟩).mi a.bbox * gains a.name)
        (scaleIn a.bbox (gains a.name)
          (l1.foldl (prepStep meanClip border Level.CCD gains)
            ⟨e.img, e.img, [], []⟩).mi)) x y = _
    rw [hext _ e.img a.bbox hagree]
    unfold subIn scaleIn
    rw [if_pos hxy, if_pos hxy, hagree x y hxy]

/-- Witness for `prepareImage_ccd`: a 4×3 sensor with two 2×3 amplifiers of
gains 2 and 3; the CCD-level map has the single detector-keyed entry with
the last amplifier's box, and pixel `(0,0)` (gain 2, raw value 10) comes out
as `10*2 - 0*2 = 20`. -/
theorem prepareImage_ccd_witness :
    ∃ r la,
      prepareImage (fun _ _ => (0:ℚ)) 1 Level.CCD
          (fun nm => if nm = 0 then (2:ℚ) else 3)
          ⟨fun x _ => if x < 2 then (10:ℚ) else 20, 4, 3,
            [⟨0, ⟨0, 0, 2, 3⟩⟩, ⟨1, ⟨2, 0, 4, 3⟩⟩], 7⟩ = some r
        ∧ ([⟨0, ⟨0, 0, 2, 3⟩⟩, ⟨1, ⟨2, 0, 4, 3⟩⟩] : List Amp).getLast? = some la
        ∧ r.areas = [(DetKey.ccdKey 7, la.bbox)]
        ∧ r.finalMi 0 0 = 20 := by
  obtain ⟨r, la, h1, h2, h3, h4⟩ :=
    prepareImage_ccd (fun _ _ => (0:ℚ)) 1
      (fun nm => if nm = 0 then (2:ℚ) else 3)
      ⟨fun x _ => if x < 2 then (10:ℚ) else 20, 4, 3,
        [⟨0, ⟨0, 0, 2, 3⟩⟩, ⟨1, ⟨2, 0, 4, 3⟩⟩], 7⟩
      [] [⟨1, ⟨2, 0, 4, 3⟩⟩] ⟨0, ⟨0, 0, 2, 3⟩⟩ rfl
      (fun _ _ _ _ => rfl)
      (by
        intro b hb u v huv hcon
        simp at hb
        subst hb
        simp [inBox] at huv hcon
        omega)
      0 0 (by decide)
  refine ⟨r, la, h1, h2, h3, ?_⟩
  rw [h4]
  norm_num

/-- **C1, counterexample.** Same concrete exposure: the CCD-level map's
single entry carries the *last amplifier's* bounding box `⟨2,0,4,3⟩`, not
the whole sensor `⟨0,0,4,3⟩`; and pixel `(0,0)` is `20 = 10 * gain 2`, not
the un-rescaled `10` that a shared gain of `1.0` would give. -/
theorem prepareImage_ccd_cex :
    (prepareImage (fun _ _ => (0:ℚ)) 1 Level.CCD
        (fun nm => if nm = 0 then (2:ℚ) else 3)
        ⟨fun x _ => if x < 2 then (10:ℚ) else 20, 4, 3,
          [⟨0, ⟨0, 0, 2, 3⟩⟩, ⟨1, ⟨2, 0, 4, 3⟩⟩], 7⟩).map
        (fun r => r.areas) = some [(DetKey.ccdKey 7, ⟨2, 0, 4, 3⟩)]
    ∧ (⟨2, 0, 4, 3⟩ : BBox) ≠ ⟨0, 0, 4, 3⟩
    ∧ (prepareImage (fun _ _ => (0:ℚ)) 1 Level.CCD
        (fun nm => if nm = 0 then (2:ℚ) else 3)
        ⟨fun x _ => if x < 2 then (10:ℚ) else 20, 4, 3,
          [⟨0, ⟨0, 0, 2, 3⟩⟩, ⟨1, ⟨2, 0, 4, 3⟩⟩], 7⟩).map
        (fun r => r.finalMi 0 0) = some 20
    ∧ (20:ℚ) ≠ 10 := by
  refine ⟨rfl, by decide, ?_, by norm_num⟩
  have hX : (List.foldl (prepStep (fun _ _ => (0:ℚ)) 1 Level.CCD
      (fun nm => if nm = 0 then (2:ℚ) else 3))
      ⟨(fun x _ => if x < 2 then (10:ℚ) else 20),
       (fun x _ => if x < 2 then (10:ℚ) else 20), [], []⟩
      [⟨0, ⟨0, 0, 2, 3⟩⟩, ⟨1, ⟨2, 0, 4, 3⟩⟩]).mi 0 0 = 20 := by
    rw [List.foldl_cons, List.foldl_cons, List.foldl_nil,
      prepStep_mi_out (fun _ _ => (0:ℚ)) 1 Level.CCD
        (fun nm => if nm = 0 then (2:ℚ) else 3) _ ⟨1, ⟨2, 0, 4, 3⟩⟩ 0 0
        (by decide)]
    unfold prepStep
    rw [if_neg (by decide : ¬ (Level.CCD = Level.AMP))]
    show (subIn (⟨0, 0, 2, 3⟩ : BBox)
        ((0:ℚ) * (if (0:ℕ) = 0 then (2:ℚ) else 3))
        (scaleIn ⟨0, 0, 2, 3⟩ (if (0:ℕ) = 0 then (2:ℚ) else 3)
          (fun x _ => if x < 2 then (10:ℚ) else 20))) 0 0 = 20
    unfold subIn scaleIn
    rw [if_pos (by decide : inBox ⟨0, 0, 2, 3⟩ 0 0),
      if_pos (by decide : inBox ⟨0, 0, 2, 3⟩ 0 0)]
    norm_num
  exact congrArg some hX

/-! ### `BfTask._crossCorrelate`

Difference the two prepared images, crop by `border`, subtract the
externally estimated background, then for each lag pair compute the clipped
mean of the recentred lag product, dividing every entry by `biasCorr`.
External statistics (`makeStatistics`/`MEANCLIP` over a `w × h` view) and
the background model (`makeBackground` + `getImageF`) are abstract
parameters.  A source subtlety embedded faithfully: `dim0` is a *view* into
the cropped difference, so `dim0 -= mean` mutates the difference in the
region `[0, w0) × [0, h0)` before the shifted patches `dim_xy` are cloned
from it.  The source performs no size check whatsoever: undersized inputs
flow into the external primitives unchecked. -/

/-- Abstract clipped mean over the first `w × h` pixels of an image view. -/
def MeanClipW : Type := (ℕ → ℕ → ℚ) → ℕ → ℕ → ℚ

/-- Abstract background estimate of a `w × h` view. -/
def BgModel : Type := (ℕ → ℕ → ℚ) → ℕ → ℕ → (ℕ → ℕ → ℚ)

/-- The cropped, background-subtracted difference image after the in-place
`dim0 -= makeStatistics(dim0, MEANCLIP)` mutation of its
`[0:-maxLag, :-maxLag]` view. -/
def xcDiff2 (meanClip : MeanClipW) (bg : BgModel) (maxLag border : ℕ)
    (im0 im1 : ℕ → ℕ → ℚ) (w h : ℕ) : ℕ → ℕ → ℚ :=
  let diffC := fun x y =>
    im0 (x + border) (y + border) - im1 (x + border) (y + border)
  let bkgd := bg diffC (w - 2*border) (h - 2*border)
  let diffB := fun x y => diffC x y - bkgd x y
  let w0 := w - 2*border - maxLag
  let h0 := h - 2*border - maxLag
  let m0 := meanClip diffB w0 h0
  fun x y => if x < w0 ∧ y < h0 then diffB x y - m0 else diffB x y

/-- `BfTask._crossCorrelate`: the `(maxLag+1) × (maxLag+1)` quarter
correlation, each entry a clipped mean of the recentred lag product divided
by `biasCorr`. -/
def crossCorrelate (meanClip : MeanClipW) (bg : BgModel)
    (maxLag border : ℕ) (biasCorr : ℚ) (im0 im1 : ℕ → ℕ → ℚ) (w h : ℕ) :
    ℕ → ℕ → ℚ :=
  let diff2 := xcDiff2 meanClip bg maxLag border im0 im1 w h
  let w0 := w - 2*border - maxLag
  let h0 := h - 2*border - maxLag
  fun xlag ylag =>
    if xlag ≤ maxLag ∧ ylag ≤ maxLag then
      meanClip (fun x y =>
        (diff2 (x + xlag) (y + ylag)
          - meanClip (fun x2 y2 => diff2 (x2 + xlag) (y2 + ylag)) w0 h0)
        * diff2 x y) w0 h0 / biasCorr
    else 0

/-- **C9 (amended).** `_crossCorrelate` performs no size check and defines
no `InsufficientRegionError`: for *every* input — the border-cropped region
being larger than `maxLag` or not — the module-level code produces the
`(maxLag+1) × (maxLag+1)` array whose entry at lag `(xl, yl)` is the
clipped mean of the recentred lag product divided by `biasCorr` (zero
outside the lag range, as `np.zeros` pre-fills); undersized regions are
passed to the external image/statistics primitives unchecked. -/
theorem crossCorrelate_no_size_check (meanClip : MeanClipW) (bg : BgModel)
    (maxLag border : ℕ) (biasCorr : ℚ) (im0 im1 : ℕ → ℕ → ℚ) (w h : ℕ)
    (xl yl : ℕ) :
    (xl ≤ maxLag ∧ yl ≤ maxLag →
      crossCorrelate meanClip bg maxLag border biasCorr im0 im1 w h xl yl =
        meanClip (fun x y =>
          (xcDiff2 meanClip bg maxLag border im0 im1 w h (x + xl) (y + yl)
            - meanClip (fun x2 y2 =>
                xcDiff2 meanClip bg maxLag border im0 im1 w h (x2 + xl) (y2 + yl))
              (w - 2*border - maxLag) (h - 2*border - maxLag))
          * xcDiff2 meanClip bg maxLag border im0 im1 w h x y)
          (w - 2*border - maxLag) (h - 2*border - maxLag) / biasCorr)
    ∧ (¬ (xl ≤ maxLag ∧ yl ≤ maxLag) →
      crossCorrelate meanClip bg maxLag border biasCorr im0 im1 w h xl yl
        = 0) := by
  constructor
  · intro hin
    unfold crossCorrelate
    rw [if_pos hin]
  · intro hout
    unfold crossCorrelate
    rw [if_neg hout]

/-- Witness for `crossCorrelate_no_size_check`: with a constant-`1`
statistics engine and a zero background model, every in-range entry is
`1 / biasCorr = 10000/9241`. -/
theorem crossCorrelate_no_size_check_witness :
    crossCorrelate (fun _ _ _ => (1:ℚ)) (fun _ _ _ => fun _ _ => 0)
      2 1 (9241/10000) (fun _ _ => (5:ℚ)) (fun _ _ => (3:ℚ)) 8 8 0 0
      = 10000/9241 := by
  rw [(crossCorrelate_no_size_check (fun _ _ _ => (1:ℚ))
    (fun _ _ _ => fun _ _ => 0) 2 1 (9241/10000) (fun _ _ => (5:ℚ))
    (fun _ _ => (3:ℚ)) 8 8 0 0).1 (by norm_num)]
  norm_num

/-- **C9, counterexample.** An undersized input (cropped side
`4 - 2*1 = 2 ≤ maxLag = 2`): the claim demands failure with
`InsufficientRegionError`, but the module-level code contains no size check
and still produces the lag array (its value determined by the external
statistics primitives, here a constant engine). -/
theorem crossCorrelate_undersized_cex :
    (4 - 2*1 : ℕ) ≤ 2 ∧
    crossCorrelate (fun _ _ _ => (1:ℚ)) (fun _ _ _ => fun _ _ => 0)
      2 1 (9241/10000) (fun _ _ => (5:ℚ)) (fun _ _ => (3:ℚ)) 4 4 0 0
      = 10000/9241 := by
  refine ⟨by norm_num, ?_⟩
  unfold crossCorrelate
  rw [if_pos (by norm_num : (0:ℕ) ≤ 2 ∧ (0:ℕ) ≤ 2)]
  norm_num

/-! ### `BfTask._SOR`

Checkerboard successive over-relaxation on a grid two cells larger than the
`n × n` source, zero boundary, `dx = 1`.  Each `while` pass is one
*half*-sweep: pass `nIter` updates the `(odd, odd)` and `(even, even)`
interior points when `nIter` is even, the mixed-parity points when odd (the
inner `j` ranges use `func.shape[0]`, like the source; the solver is only
ever called on a square array).  After every half-sweep the source compares
`np.sum(np.abs(resid))` against `inError * eLevel` and, when not breaking,
recomputes `omega` — so `omega` changes once per *half*-sweep:
`1/(1-ρ²/2)` after the very first half-sweep, then `1/(1-ρ²·ω/4)` after
each subsequent one.  The source computes `rhoSpe = cos(π/source.shape[0])`
and uses only its square; the embedding takes `rhoSq` as a parameter (for
the program's 4×4 surfaces, `rhoSq = cos(π/4)² = 1/2`, see
`sor_omega_schedule_cex`). -/

/-- `range(a, b, 2)`. -/
def rng2 (a b : ℕ) : List ℕ :=
  (List.range ((b - a + 1) / 2)).map (fun t => a + 2*t)

/-- The 5-point residual
`func[i,j-1]+func[i,j+1]+func[i-1,j]+func[i+1,j]-4*func[i,j]-dx*dx*source[i-1,j-1]`
with `dx = 1`. -/
def sorResidAt (source func : ℕ → ℕ → ℚ) (i j : ℕ) : ℚ :=
  func i (j-1) + func i (j+1) + func (i-1) j + func (i+1) j
    - 4 * func i j - source (i-1) (j-1)

/-- One checkerboard point update:
`resid[i,j] = ...; func[i,j] += omega*resid[i,j]*.25`. -/
def sorPoint (source : ℕ → ℕ → ℚ) (omg : ℚ)
    (fr : (ℕ → ℕ → ℚ) × (ℕ → ℕ → ℚ)) (p : ℕ × ℕ) :
    (ℕ → ℕ → ℚ) × (ℕ → ℕ → ℚ) :=
  let r := sorResidAt source fr.1 p.1 p.2
  (upd2 fr.1 p.1 p.2 (fr.1 p.1 p.2 + omg * r * (1/4)),
   upd2 fr.2 p.1 p.2 r)

/-- A double loop of point updates over `is × js` (row-major, like the
source). -/
def sweepRun (source : ℕ → ℕ → ℚ) (omg : ℚ) (is js : List ℕ)
    (fr : (ℕ → ℕ → ℚ) × (ℕ → ℕ → ℚ)) : (ℕ → ℕ → ℚ) × (ℕ → ℕ → ℚ) :=
  is.foldl (fun fr1 i =>
    js.foldl (fun fr2 j => sorPoint source omg fr2 (i, j)) fr1) fr

/-- One half-sweep: the two quadrant loops of the even (`nIter%2 == 0`) or
odd branch. -/
def sorSweep (source : ℕ → ℕ → ℚ) (n : ℕ) (omg : ℚ) (evenPass : Bool)
    (fr : (ℕ → ℕ → ℚ) × (ℕ → ℕ → ℚ)) : (ℕ → ℕ → ℚ) × (ℕ → ℕ → ℚ) :=
  if evenPass then
    sweepRun source omg (rng2 2 (n+1)) (rng2 2 (n+1))
      (sweepRun source omg (rng2 1 (n+1)) (rng2 1 (n+1)) fr)
  else
    sweepRun source omg (rng2 2 (n+1)) (rng2 1 (n+1))
      (sweepRun source omg (rng2 1 (n+1)) (rng2 2 (n+1)) fr)

/-- Inner `for j in range(1, func.shape[1]-1)` loop of the initial residual
computation, run for `j = 1, ..., k` at row `i` (`func` is all zeros
here). -/
def sorInitInner (source : ℕ → ℕ → ℚ) (i : ℕ) :
    ℕ → (ℕ → ℕ → ℚ) → (ℕ → ℕ → ℚ)
  | 0, acc => acc
  | k+1, acc => upd2 (sorInitInner source i k acc) i (k+1)
      (sorResidAt source (fun _ _ => 0) i (k+1))

/-- Outer `for i in range(1, func.shape[0]-1)` loop of the initial residual
computation, run for `i = 1, ..., k` with inner length `n`. -/
def sorInitOuter (source : ℕ → ℕ → ℚ) (n : ℕ) :
    ℕ → (ℕ → ℕ → ℚ) → (ℕ → ℕ → ℚ)
  | 0, acc => acc
  | k+1, acc => sorInitInner source (k+1) n (sorInitOuter source n k acc)

/-- The initial residual array of `_SOR` (`func` all zeros). -/
def sorInitResid (source : ℕ → ℕ → ℚ) (n : ℕ) : ℕ → ℕ → ℚ :=
  sorInitOuter source n n (fun _ _ => 0)

/-- `inError = np.sum(np.abs(resid))` over the full `(n+2)²` array. -/
def sorInError (source : ℕ → ℕ → ℚ) (n : ℕ) : ℚ :=
  sumGrid (n+2) (n+2) (fun i j => |sorInitResid source n i j|)

structure SORState where
  func : ℕ → ℕ → ℚ
  resid : ℕ → ℕ → ℚ
  omg : ℚ
  nIter : ℕ
  done : Bool

/-- One `while` pass of `_SOR`: a half-sweep, the convergence test, and —
when not converged — the `omega` update and the `nIter` increment.  A state
with `done` set is final (the Python `break` has fired). -/
def sorPass (source : ℕ → ℕ → ℚ) (n : ℕ) (rhoSq eLevel inError : ℚ)
    (st : SORState) : SORState :=
  if st.done then st
  else
    let fr := sorSweep source n st.omg (st.nIter % 2 == 0) (st.func, st.resid)
    let outError := sumGrid (n+2) (n+2) (fun i j => |fr.2 i j|)
    if outError < inError * eLevel then
      { func := fr.1, resid := fr.2, omg := st.omg, nIter := st.nIter,
        done := true }
    else
      { func := fr.1, resid := fr.2,
        omg := if st.nIter = 0 then 1/(1 - rhoSq/2)
               else 1/(1 - rhoSq * st.omg / 4),
        nIter := st.nIter + 1, done := false }

/-- The state of `_SOR` after `k` `while` passes. -/
def sorIter (source : ℕ → ℕ → ℚ) (n : ℕ) (rhoSq eLevel : ℚ) :
    ℕ → SORState
  | 0 => { func := fun _ _ => 0, resid := sorInitResid source n, omg := 1,
           nIter := 0, done := false }
  | k+1 => sorPass source n rhoSq eLevel (sorInError source n)
      (sorIter source n rhoSq eLevel k)

/-- `_SOR`'s final state: the `while` loop runs at most `maxIter*2`
half-sweeps. -/
def sorRun (source : ℕ → ℕ → ℚ) (n maxIter : ℕ) (eLevel rhoSq : ℚ) :
    SORState :=
  sorIter source n rhoSq eLevel (2*maxIter)

/-- The returned interior `func[1:-1, 1:-1]`. -/
def sorSolution (source : ℕ → ℕ → ℚ) (n maxIter : ℕ) (eLevel rhoSq : ℚ) :
    ℕ → ℕ → ℚ :=
  fun i j => (sorRun source n maxIter eLevel rhoSq).func (i+1) (j+1)

/-- The relaxation-factor sequence actually realised by the source: the
value used during half-sweep `k`. -/
def omegaSeq (rhoSq : ℚ) : ℕ → ℚ
  | 0 => 1
  | k+1 => if k = 0 then 1/(1 - rhoSq/2)
           else 1/(1 - rhoSq * omegaSeq rhoSq k / 4)

lemma sorPass_done (source : ℕ → ℕ → ℚ) (n : ℕ) (rhoSq eLevel inError : ℚ)
    (st : SORState) (h : st.done = true) :
    sorPass source n rhoSq eLevel inError st = st := by
  unfold sorPass
  rw [if_pos h]

lemma sorPass_not_done (source : ℕ → ℕ → ℚ) (n : ℕ)
    (rhoSq eLevel inError : ℚ) (st : SORState) (h : st.done = false) :
    sorPass source n rhoSq eLevel inError st =
      (if sumGrid (n+2) (n+2) (fun i j =>
            |(sorSweep source n st.omg (st.nIter % 2 == 0)
              (st.func, st.resid)).2 i j|) < inError * eLevel then
        { func := (sorSweep source n st.omg (st.nIter % 2 == 0)
            (st.func, st.resid)).1,
          resid := (sorSweep source n st.omg (st.nIter % 2 == 0)
            (st.func, st.resid)).2,
          omg := st.omg, nIter := st.nIter, done := true }
      else
        { func := (sorSweep source n st.omg (st.nIter % 2 == 0)
            (st.func, st.resid)).1,
          resid := (sorSweep source n st.omg (st.nIter % 2 == 0)
            (st.func, st.resid)).2,
          omg := if st.nIter = 0 then 1/(1 - rhoSq/2)
                 else 1/(1 - rhoSq * st.omg / 4),
          nIter := st.nIter + 1, done := false }) := by
  unfold sorPass
  rw [if_neg (by rw [h]; exact Bool.false_ne_true)]

lemma sorIter_nIter_le (source : ℕ → ℕ → ℚ) (n : ℕ) (rhoSq eLevel : ℚ) :
    ∀ k, (sorIter source n rhoSq eLevel k).nIter ≤ k := by
  intro k
  induction k with
  | zero => exact Nat.le_refl 0
  | succ k ih =>
    rw [sorIter]
    cases hdk : (sorIter source n rhoSq eLevel k).done with
    | true =>
      rw [sorPass_done source n rhoSq eLevel (sorInError source n) _ hdk]
      exact Nat.le_succ_of_le ih
    | false =>
      rw [sorPass_not_done source n rhoSq eLevel (sorInError source n) _ hdk]
      split
      · exact Nat.le_succ_of_le ih
      · exact Nat.succ_le_succ ih

/-- **C5 (amended).** In `_SOR` the relaxation factor is recomputed after
*every half-sweep*, not once per full iteration: the omega used during
half-sweep `k` is `omegaSeq k`, with `omegaSeq 0 = 1`,
`omegaSeq 1 = 1/(1-ρ²/2)` (already for the second half-sweep of the first
full iteration) and `omegaSeq (k+1) = 1/(1-ρ²·omegaSeq k/4)`; the
convergence test `sum|resid| < eLevel·initialResidualSum` is likewise
applied after every half-sweep, the loop stopping at the first passing test
or after `2·maxIter` half-sweeps. -/
theorem sor_omega_per_half_sweep (source : ℕ → ℕ → ℚ) (n : ℕ)
    (rhoSq eLevel : ℚ) :
    (∀ k, (sorIter source n rhoSq eLevel k).done = false →
      (sorIter source n rhoSq eLevel k).omg = omegaSeq rhoSq k ∧
      (sorIter source n rhoSq eLevel k).nIter = k)
    ∧ (∀ k, (sorIter source n rhoSq eLevel (k+1)).done =
        ((sorIter source n rhoSq eLevel k).done ||
          decide (sumGrid (n+2) (n+2) (fun i j =>
            |(sorSweep source n (sorIter source n rhoSq eLevel k).omg
              ((sorIter source n rhoSq eLevel k).nIter % 2 == 0)
              ((sorIter source n rhoSq eLevel k).func,
               (sorIter source n rhoSq eLevel k).resid)).2 i j|)
            < sorInError source n * eLevel)))
    ∧ (∀ maxIter, (sorRun source n maxIter eLevel rhoSq).nIter
        ≤ 2*maxIter) := by
  refine ⟨?_, ?_, ?_⟩
  · intro k
    induction k with
    | zero => exact fun _ => ⟨rfl, rfl⟩
    | succ k ih =>
      intro h
      have hk : (sorIter source n rhoSq eLevel k).done = false := by
        cases hdk : (sorIter source n rhoSq eLevel k).done with
        | false => rfl
        | true =>
          rw [sorIter,
            sorPass_done source n rhoSq eLevel (sorInError source n) _ hdk]
            at h
          rw [hdk] at h
          cases h
      obtain ⟨ho, hn⟩ := ih hk
      rw [sorIter, sorPass_not_done source n rhoSq eLevel
        (sorInError source n) _ hk] at h ⊢
      by_cases hlt : sumGrid (n+2) (n+2) (fun i j =>
          |(sorSweep source n (sorIter source n rhoSq eLevel k).omg
            ((sorIter source n rhoSq eLevel k).nIter % 2 == 0)
            ((sorIter source n rhoSq eLevel k).func,
             (sorIter source n rhoSq eLevel k).resid)).2 i j|)
          < sorInError source n * eLevel
      · rw [if_pos hlt] at h
        cases h
      · rw [if_neg hlt]
        constructor
        · show (if (sorIter source n rhoSq eLevel k).nIter = 0
              then 1/(1 - rhoSq/2)
              else 1/(1 - rhoSq * (sorIter source n rhoSq eLevel k).omg / 4))
            = omegaSeq rhoSq (k+1)
          rw [hn, ho, omegaSeq]
        · show (sorIter source n rhoSq eLevel k).nIter + 1 = k + 1
          rw [hn]
  · intro k
    cases hdk : (sorIter source n rhoSq eLevel k).done with
    | false =>
      rw [sorIter, sorPass_not_done source n rhoSq eLevel
        (sorInError source n) _ hdk]
      by_cases hlt : sumGrid (n+2) (n+2) (fun i j =>
          |(sorSweep source n (sorIter source n rhoSq eLevel k).omg
            ((sorIter source n rhoSq eLevel k).nIter % 2 == 0)
            ((sorIter source n rhoSq eLevel k).func,
             (sorIter source n rhoSq eLevel k).resid)).2 i j|)
          < sorInError source n * eLevel
      · rw [if_pos hlt]
        show true = (false || _)
        rw [Bool.false_or, decide_eq_true hlt]
      · rw [if_neg hlt]
        show false = (false || _)
        rw [Bool.false_or, decide_eq_false hlt]
    | true =>
      rw [sorIter, sorPass_done source n rhoSq eLevel (sorInError source n) _
        hdk, hdk, Bool.true_or]
  · intro maxIter
    exact sorIter_nIter_le source n rhoSq eLevel (2*maxIter)

/-- Witness for `sor_omega_per_half_sweep`: before any half-sweep the state
is live (`done = false`) and carries `ω = omegaSeq 0 = 1`, `nIter = 0`. -/
theorem sor_omega_per_half_sweep_witness :
    (sorIter (fun _ _ => (1:ℚ)) 1 (1/2) (5/10^14) 0).done = false ∧
    (sorIter (fun _ _ => (1:ℚ)) 1 (1/2) (5/10^14) 0).omg
      = omegaSeq (1/2) 0 ∧
    (sorIter (fun _ _ => (1:ℚ)) 1 (1/2) (5/10^14) 0).nIter = 0 :=
  ⟨rfl,
   ((sor_omega_per_half_sweep (fun _ _ => (1:ℚ)) 1 (1/2) (5/10^14)).1 0
     rfl).1,
   ((sor_omega_per_half_sweep (fun _ _ => (1:ℚ)) 1 (1/2) (5/10^14)).1 0
     rfl).2⟩

lemma sumRange_nonneg (n : ℕ) (g : ℕ → ℚ) (h : ∀ i, 0 ≤ g i) :
    0 ≤ sumRange n g := by
  unfold sumRange
  apply List.sum_nonneg
  intro x hx
  obtain ⟨i, _, rfl⟩ := List.mem_map.mp hx
  exact h i

lemma sumRange_ge_single (n : ℕ) (g : ℕ → ℚ) (i : ℕ) (hi : i < n)
    (h : ∀ j, 0 ≤ g j) : g i ≤ sumRange n g := by
  unfold sumRange
  apply List.single_le_sum
  · intro x hx
    obtain ⟨j, _, rfl⟩ := List.mem_map.mp hx
    exact h j
  · exact List.mem_map.mpr ⟨i, List.mem_range.mpr hi, rfl⟩

lemma sumGrid_ge_single (m n : ℕ) (f : ℕ → ℕ → ℚ) (i j : ℕ) (hi : i < m)
    (hj : j < n) (h : ∀ a b, 0 ≤ f a b) : f i j ≤ sumGrid m n f := by
  unfold sumGrid
  calc f i j ≤ sumRange n (f i) := sumRange_ge_single n (f i) j hj (h i)
  _ ≤ sumRange m (fun a => sumRange n (f a)) :=
      sumRange_ge_single m _ i hi (fun a => sumRange_nonneg n (f a) (h a))

lemma sumRange_le_mul (n : ℕ) (g : ℕ → ℚ) (c : ℚ) (h : ∀ i, g i ≤ c) :
    sumRange n g ≤ (n : ℚ) * c := by
  unfold sumRange
  have hb := List.sum_le_card_nsmul ((List.range n).map g) c ?_
  · rwa [List.length_map, List.length_range, nsmul_eq_mul] at hb
  · intro x hx
    obtain ⟨i, _, rfl⟩ := List.mem_map.mp hx
    exact h i

lemma sumGrid_le_mul (m n : ℕ) (f : ℕ → ℕ → ℚ) (c : ℚ)
    (h : ∀ i j, f i j ≤ c) : sumGrid m n f ≤ (m : ℚ) * ((n : ℚ) * c) := by
  unfold sumGrid
  exact sumRange_le_mul m _ _ (fun i => sumRange_le_mul n (f i) c (h i))

lemma sumGrid_zero (m n : ℕ) (f : ℕ → ℕ → ℚ) (h : ∀ i j, f i j = 0) :
    sumGrid m n f = 0 := by
  unfold sumGrid sumRange
  apply List.sum_eq_zero
  intro x hx
  obtain ⟨i, _, rfl⟩ := List.mem_map.mp hx
  apply List.sum_eq_zero
  intro x2 hx2
  obtain ⟨j, _, rfl⟩ := List.mem_map.mp hx2
  exact h i j

lemma sorInitInner_eval (source : ℕ → ℕ → ℚ) (i : ℕ) :
    ∀ (k : ℕ) (acc : ℕ → ℕ → ℚ) (a b : ℕ),
      sorInitInner source i k acc a b =
        if a = i ∧ 1 ≤ b ∧ b ≤ k then sorResidAt source (fun _ _ => 0) a b
        else acc a b := by
  intro k
  induction k with
  | zero =>
    intro acc a b
    rw [sorInitInner, if_neg]
    omega
  | succ k ih =>
    intro acc a b
    rw [sorInitInner]
    unfold upd2
    by_cases hab : a = i ∧ b = k+1
    · rw [if_pos hab, if_pos (by omega)]
      rcases hab with ⟨h1, h2⟩
      rw [h1, h2]
    · rw [if_neg hab, ih acc a b]
      by_cases h2 : a = i ∧ 1 ≤ b ∧ b ≤ k
      · rw [if_pos h2, if_pos (by omega)]
      · rw [if_neg h2, if_neg (by omega)]

lemma sorInitOuter_eval (source : ℕ → ℕ → ℚ) (n : ℕ) :
    ∀ (k : ℕ) (acc : ℕ → ℕ → ℚ) (a b : ℕ),
      sorInitOuter source n k acc a b =
        if 1 ≤ a ∧ a ≤ k ∧ 1 ≤ b ∧ b ≤ n then
          sorResidAt source (fun _ _ => 0) a b
        else acc a b := by
  intro k
  induction k with
  | zero =>
    intro acc a b
    rw [sorInitOuter, if_neg]
    omega
  | succ k ih =>
    intro acc a b
    rw [sorInitOuter, sorInitInner_eval source (k+1) n _ a b, ih acc a b]
    by_cases h1 : a = k+1 ∧ 1 ≤ b ∧ b ≤ n
    · rw [if_pos h1, if_pos (by omega)]
    · rw [if_neg h1]
      by_cases h2 : 1 ≤ a ∧ a ≤ k ∧ 1 ≤ b ∧ b ≤ n
      · rw [if_pos h2, if_pos (by omega)]
      · rw [if_neg h2, if_neg (by omega)]

/-- The initial residual is `-source[i-1, j-1]` at the interior points and
`0` elsewhere. -/
lemma sorInitResid_eval (source : ℕ → ℕ → ℚ) (n a b : ℕ) :
    sorInitResid source n a b =
      if 1 ≤ a ∧ a ≤ n ∧ 1 ≤ b ∧ b ≤ n then -(source (a-1) (b-1))
      else 0 := by
  unfold sorInitResid
  rw [sorInitOuter_eval source n n _ a b]
  split
  · unfold sorResidAt
    ring
  · rfl

lemma sorPoint_resid_other (source : ℕ → ℕ → ℚ) (omg : ℚ)
    (fr : (ℕ → ℕ → ℚ) × (ℕ → ℕ → ℚ)) (p : ℕ × ℕ) (a b : ℕ)
    (h : ¬ (a = p.1 ∧ b = p.2)) :
    (sorPoint source omg fr p).2 a b = fr.2 a b := by
  show (if a = p.1 ∧ b = p.2 then sorResidAt source fr.1 p.1 p.2
    else fr.2 a b) = fr.2 a b
  exact if_neg h

lemma innerRun_resid_out (source : ℕ → ℕ → ℚ) (omg : ℚ) (i a b : ℕ) :
    ∀ (js : List ℕ), ¬ (a = i ∧ b ∈ js) →
      ∀ fr, ((js.foldl (fun fr2 j => sorPoint source omg fr2 (i, j)) fr)).2 a b
        = fr.2 a b := by
  intro js
  induction js with
  | nil => intro _ fr; rfl
  | cons j t ih =>
    intro h fr
    rw [List.foldl_cons,
      ih (by rintro ⟨ha, hb⟩; exact h ⟨ha, List.mem_cons_of_mem j hb⟩) _,
      sorPoint_resid_other source omg fr (i, j) a b
        (by rintro ⟨ha, hb⟩; exact h ⟨ha, hb ▸ List.mem_cons_self j t⟩)]

lemma sweepRun_resid_out (source : ℕ → ℕ → ℚ) (omg : ℚ) (a b : ℕ) :
    ∀ (is js : List ℕ), (∀ i ∈ is, ¬ (a = i ∧ b ∈ js)) →
      ∀ fr, (sweepRun source omg is js fr).2 a b = fr.2 a b := by
  intro is
  induction is with
  | nil => intro js _ fr; rfl
  | cons i t ih =>
    intro js h fr
    show (sweepRun source omg t js
      (js.foldl (fun fr2 j => sorPoint source omg fr2 (i, j)) fr)).2 a b
      = fr.2 a b
    rw [ih js (fun i2 hi2 => h i2 (List.mem_cons_of_mem i hi2)) _,
      innerRun_resid_out source omg i a b js (h i (List.mem_cons_self i t)) fr]

/-- **C5, counterexample.** A 4×4 all-ones source (so the grid size gives
`ρ² = cos(π/4)² = 1/2`) with the default `eLevel = 5e-14`: the first
half-sweep does not converge, and the state entering the *second* half-sweep
— still inside the claim's "first full iteration" — already carries
`ω = 1/(1-ρ²/2) = 4/3 ≠ 1`: omega is recomputed per half-sweep, not once
per full iteration. -/
theorem sor_omega_schedule_cex :
    (Real.cos (Real.pi / 4))^2 = 1/2 ∧
    (sorIter (fun _ _ => (1:ℚ)) 4 (1/2) (5/10^14) 1).done = false ∧
    (sorIter (fun _ _ => (1:ℚ)) 4 (1/2) (5/10^14) 1).omg = 4/3 ∧
    ((4:ℚ)/3) ≠ 1 := by
  have hcos : (Real.cos (Real.pi / 4))^2 = 1/2 := by
    rw [Real.cos_pi_div_four, div_pow, Real.sq_sqrt (by norm_num : (0:ℝ) ≤ 2)]
    norm_num
  have hpres : (sorSweep (fun _ _ => (1:ℚ)) 4 1 true
      ((fun _ _ => (0:ℚ)), sorInitResid (fun _ _ => (1:ℚ)) 4)).2 1 2
      = sorInitResid (fun _ _ => (1:ℚ)) 4 1 2 := by
    unfold sorSweep
    rw [if_pos rfl,
      show rng2 1 (4+1) = [1, 3] from rfl,
      show rng2 2 (4+1) = [2, 4] from rfl,
      sweepRun_resid_out (fun _ _ => (1:ℚ)) 1 1 2 [2, 4] [2, 4]
        (by decide) _,
      sweepRun_resid_out (fun _ _ => (1:ℚ)) 1 1 2 [1, 3] [1, 3]
        (by decide) _]
  have hval : sorInitResid (fun _ _ => (1:ℚ)) 4 1 2 = -1 := by
    rw [sorInitResid_eval, if_pos (by omega)]
  have hbound : ∀ i j : ℕ, |sorInitResid (fun _ _ => (1:ℚ)) 4 i j| ≤ 1 := by
    intro i j
    rw [sorInitResid_eval]
    split <;> norm_num
  have hnlt : ¬ (sumGrid (4+2) (4+2) (fun i j =>
      |(sorSweep (fun _ _ => (1:ℚ)) 4
        (sorIter (fun _ _ => (1:ℚ)) 4 (1/2) (5/10^14) 0).omg
        ((sorIter (fun _ _ => (1:ℚ)) 4 (1/2) (5/10^14) 0).nIter % 2 == 0)
        ((sorIter (fun _ _ => (1:ℚ)) 4 (1/2) (5/10^14) 0).func,
         (sorIter (fun _ _ => (1:ℚ)) 4 (1/2) (5/10^14) 0).resid)).2 i j|)
      < sorInError (fun _ _ => (1:ℚ)) 4 * (5/10^14)) := by
    show ¬ (sumGrid (4+2) (4+2) (fun i j =>
      |(sorSweep (fun _ _ => (1:ℚ)) 4 1 true
        ((fun _ _ => (0:ℚ)), sorInitResid (fun _ _ => (1:ℚ)) 4)).2 i j|)
      < sorInError (fun _ _ => (1:ℚ)) 4 * (5/10^14))
    intro hcon
    have hout : (1:ℚ) ≤ sumGrid (4+2) (4+2) (fun i j =>
        |(sorSweep (fun _ _ => (1:ℚ)) 4 1 true
          ((fun _ _ => (0:ℚ)), sorInitResid (fun _ _ => (1:ℚ)) 4)).2 i j|) := by
      have hs := sumGrid_ge_single (4+2) (4+2) (fun i j =>
        |(sorSweep (fun _ _ => (1:ℚ)) 4 1 true
          ((fun _ _ => (0:ℚ)), sorInitResid (fun _ _ => (1:ℚ)) 4)).2 i j|)
        1 2 (by norm_num) (by norm_num) (fun a b => abs_nonneg _)
      have hs2 : |(sorSweep (fun _ _ => (1:ℚ)) 4 1 true
          ((fun _ _ => (0:ℚ)), sorInitResid (fun _ _ => (1:ℚ)) 4)).2 1 2|
          ≤ sumGrid (4+2) (4+2) (fun i j =>
            |(sorSweep (fun _ _ => (1:ℚ)) 4 1 true
              ((fun _ _ => (0:ℚ)),
               sorInitResid (fun _ _ => (1:ℚ)) 4)).2 i j|) := hs
      rw [hpres, hval] at hs2
      simpa using hs2
    have hin : sorInError (fun _ _ => (1:ℚ)) 4 ≤ 36 := by
      have hs := sumGrid_le_mul (4+2) (4+2)
        (fun i j => |sorInitResid (fun _ _ => (1:ℚ)) 4 i j|) 1 hbound
      have h36 : ((4+2 : ℕ) : ℚ) * (((4+2 : ℕ) : ℚ) * 1) = 36 := by norm_num
      unfold sorInError
      linarith
    have hsmall : sorInError (fun _ _ => (1:ℚ)) 4 * (5/10^14) < 1 := by
      have hm := mul_le_mul_of_nonneg_right hin
        (show (0:ℚ) ≤ 5/10^14 by norm_num)
      have h1 : (36:ℚ) * (5/10^14) < 1 := by norm_num
      linarith
    linarith
  refine ⟨hcos, ?_, ?_, by norm_num⟩
  · rw [sorIter, sorPass_not_done (fun _ _ => (1:ℚ)) 4 (1/2) (5/10^14)
      (sorInError (fun _ _ => (1:ℚ)) 4) _ rfl, if_neg hnlt]
  · rw [sorIter, sorPass_not_done (fun _ _ => (1:ℚ)) 4 (1/2) (5/10^14)
      (sorInError (fun _ _ => (1:ℚ)) 4) _ rfl, if_neg hnlt]
    show (if (sorIter (fun _ _ => (1:ℚ)) 4 (1/2) (5/10^14) 0).nIter = 0
        then 1/(1 - (1/2)/2)
        else 1/(1 - (1/2) *
          (sorIter (fun _ _ => (1:ℚ)) 4 (1/2) (5/10^14) 0).omg / 4)) = 4/3
    rw [if_pos (show (sorIter (fun _ _ => (1:ℚ)) 4 (1/2)
      (5/10^14) 0).nIter = 0 from rfl)]
    norm_num

/-! Zero-source behaviour of `_SOR` (claim C6). -/

lemma sorPoint_zero (omg : ℚ) (p : ℕ × ℕ)
    (fr : (ℕ → ℕ → ℚ) × (ℕ → ℕ → ℚ))
    (hf : ∀ a b, fr.1 a b = 0) (hr : ∀ a b, fr.2 a b = 0) :
    (∀ a b, (sorPoint (fun _ _ => 0) omg fr p).1 a b = 0) ∧
    (∀ a b, (sorPoint (fun _ _ => 0) omg fr p).2 a b = 0) := by
  have hres : sorResidAt (fun _ _ => 0) fr.1 p.1 p.2 = 0 := by
    unfold sorResidAt
    rw [hf, hf, hf, hf, hf]
    norm_num
  constructor
  · intro a b
    show (if a = p.1 ∧ b = p.2
      then fr.1 p.1 p.2 + omg * sorResidAt (fun _ _ => 0) fr.1 p.1 p.2 * (1/4)
      else fr.1 a b) = 0
    split
    · rw [hf, hres]
      ring
    · exact hf a b
  · intro a b
    show (if a = p.1 ∧ b = p.2 then sorResidAt (fun _ _ => 0) fr.1 p.1 p.2
      else fr.2 a b) = 0
    split
    · exact hres
    · exact hr a b

lemma innerRun_zero (omg : ℚ) (i : ℕ) :
    ∀ (js : List ℕ) (fr : (ℕ → ℕ → ℚ) × (ℕ → ℕ → ℚ)),
      (∀ a b, fr.1 a b = 0) → (∀ a b, fr.2 a b = 0) →
      (∀ a b, ((js.foldl (fun fr2 j =>
        sorPoint (fun _ _ => 0) omg fr2 (i, j)) fr)).1 a b = 0) ∧
      (∀ a b, ((js.foldl (fun fr2 j =>
        sorPoint (fun _ _ => 0) omg fr2 (i, j)) fr)).2 a b = 0) := by
  intro js
  induction js with
  | nil => intro fr hf hr; exact ⟨hf, hr⟩
  | cons j t ih =>
    intro fr hf hr
    rw [List.foldl_cons]
    obtain ⟨hf2, hr2⟩ := sorPoint_zero omg (i, j) fr hf hr
    exact ih _ hf2 hr2

lemma sweepRun_zero (omg : ℚ) :
    ∀ (is js : List ℕ) (fr : (ℕ → ℕ → ℚ) × (ℕ → ℕ → ℚ)),
      (∀ a b, fr.1 a b = 0) → (∀ a b, fr.2 a b = 0) →
      (∀ a b, (sweepRun (fun _ _ => 0) omg is js fr).1 a b = 0) ∧
      (∀ a b, (sweepRun (fun _ _ => 0) omg is js fr).2 a b = 0) := by
  intro is
  induction is with
  | nil => intro js fr hf hr; exact ⟨hf, hr⟩
  | cons i t ih =>
    intro js fr hf hr
    obtain ⟨hf2, hr2⟩ := innerRun_zero omg i js fr hf hr
    exact ih js _ hf2 hr2

lemma sorSweep_zero (n : ℕ) (omg : ℚ) (evenPass : Bool)
    (fr : (ℕ → ℕ → ℚ) × (ℕ → ℕ → ℚ))
    (hf : ∀ a b, fr.1 a b = 0) (hr : ∀ a b, fr.2 a b = 0) :
    (∀ a b, (sorSweep (fun _ _ => 0) n omg evenPass fr).1 a b = 0) ∧
    (∀ a b, (sorSweep (fun _ _ => 0) n omg evenPass fr).2 a b = 0) := by
  unfold sorSweep
  cases evenPass with
  | true =>
    rw [if_pos rfl]
    obtain ⟨hf2, hr2⟩ :=
      sweepRun_zero omg (rng2 1 (n+1)) (rng2 1 (n+1)) fr hf hr
    exact sweepRun_zero omg (rng2 2 (n+1)) (rng2 2 (n+1)) _ hf2 hr2
  | false =>
    rw [if_neg (by simp)]
    obtain ⟨hf2, hr2⟩ :=
      sweepRun_zero omg (rng2 1 (n+1)) (rng2 2 (n+1)) fr hf hr
    exact sweepRun_zero omg (rng2 2 (n+1)) (rng2 1 (n+1)) _ hf2 hr2

lemma sorIter_zero (n : ℕ) (rhoSq eLevel : ℚ) :
    ∀ k, (∀ i j, (sorIter (fun _ _ => 0) n rhoSq eLevel k).func i j = 0) ∧
      (∀ i j, (sorIter (fun _ _ => 0) n rhoSq eLevel k).resid i j = 0) ∧
      (sorIter (fun _ _ => 0) n rhoSq eLevel k).done = false ∧
      (sorIter (fun _ _ => 0) n rhoSq eLevel k).nIter = k := by
  intro k
  induction k with
  | zero =>
    refine ⟨fun i j => rfl, fun i j => ?_, rfl, rfl⟩
    show sorInitResid (fun _ _ => 0) n i j = 0
    rw [sorInitResid_eval]
    split <;> norm_num
  | succ k ih =>
    obtain ⟨hf, hr, hd, hn⟩ := ih
    obtain ⟨hf2, hr2⟩ := sorSweep_zero n
      (sorIter (fun _ _ => 0) n rhoSq eLevel k).omg
      ((sorIter (fun _ _ => 0) n rhoSq eLevel k).nIter % 2 == 0)
      ((sorIter (fun _ _ => 0) n rhoSq eLevel k).func,
       (sorIter (fun _ _ => 0) n rhoSq eLevel k).resid) hf hr
    have hneg : ¬ (sumGrid (n+2) (n+2) (fun i j =>
        |(sorSweep (fun _ _ => 0) n
          (sorIter (fun _ _ => 0) n rhoSq eLevel k).omg
          ((sorIter (fun _ _ => 0) n rhoSq eLevel k).nIter % 2 == 0)
          ((sorIter (fun _ _ => 0) n rhoSq eLevel k).func,
           (sorIter (fun _ _ => 0) n rhoSq eLevel k).resid)).2 i j|)
        < sorInError (fun _ _ => 0) n * eLevel) := by
      have hout : sumGrid (n+2) (n+2) (fun i j =>
          |(sorSweep (fun _ _ => 0) n
            (sorIter (fun _ _ => 0) n rhoSq eLevel k).omg
            ((sorIter (fun _ _ => 0) n rhoSq eLevel k).nIter % 2 == 0)
            ((sorIter (fun _ _ => 0) n rhoSq eLevel k).func,
             (sorIter (fun _ _ => 0) n rhoSq eLevel k).resid)).2 i j|)
          = 0 := by
        apply sumGrid_zero
        intro i j
        rw [hr2 i j]
        norm_num
      have hin : sorInError (fun _ _ => 0) n = 0 := by
        unfold sorInError
        apply sumGrid_zero
        intro i j
        rw [sorInitResid_eval]
        split <;> norm_num
      rw [hout, hin, zero_mul]
      exact lt_irrefl 0
    rw [sorIter, sorPass_not_done (fun _ _ => 0) n rhoSq eLevel
      (sorInError (fun _ _ => 0) n) _ hd, if_neg hneg]
    refine ⟨hf2, hr2, rfl, ?_⟩
    show (sorIter (fun _ _ => 0) n rhoSq eLevel k).nIter + 1 = k + 1
    rw [hn]

/-- **C6 (amended).** For an all-zero source the SOR solver does return the
all-zero interior solution, but it does *not* terminate in one iteration:
the residual sum is `0` from the start, so the strict convergence test
`outError < inError*eLevel` (that is, `0 < 0`) never passes, the loop runs
the whole `2·maxIter` half-sweep budget and reports non-convergence. -/
theorem sor_zero_source (n maxIter : ℕ) (rhoSq eLevel : ℚ) :
    (∀ i j, sorSolution (fun _ _ => 0) n maxIter eLevel rhoSq i j = 0) ∧
    (sorRun (fun _ _ => 0) n maxIter eLevel rhoSq).nIter = 2*maxIter ∧
    (sorRun (fun _ _ => 0) n maxIter eLevel rhoSq).done = false := by
  obtain ⟨hf, _, hd, hn⟩ := sorIter_zero n rhoSq eLevel (2*maxIter)
  exact ⟨fun i j => hf (i+1) (j+1), hn, hd⟩

/-- **C6, counterexample.** On a concrete zero source (`n = 2`,
`maxIter = 2`, default-style `eLevel`), `_SOR` exhausts all
`2·maxIter = 4` half-sweeps with the convergence flag never set — the claim
says the convergence criterion is met on the first check and the solver
terminates in one iteration. -/
theorem sor_zero_source_cex :
    (sorRun (fun _ _ => (0:ℚ)) 2 2 (5/10^14) (1/2)).nIter = 4 ∧
    (sorRun (fun _ _ => (0:ℚ)) 2 2 (5/10^14) (1/2)).done = false ∧
    sorSolution (fun _ _ => (0:ℚ)) 2 2 (5/10^14) (1/2) 0 0 = 0 := by
  obtain ⟨hf, _, hd, hn⟩ := sorIter_zero 2 (1/2) (5/10^14) 4
  exact ⟨hn, hd, hf 1 1⟩

end BfCoeffCalc
